import Mathlib

/-
Verification of the vPGM harness (P-GALM repository).

This file shallowly embeds the core of the repository in Lean 4:

* `vpgm_llm_client.py`: `extract_json_from_text`, `parse_vpgm_instance`,
  `validate_probability_dict`, `validate_vpgm_instance_against_template`,
  `infer_vpgm_for_skeleton` (retry loop);
* `scienceqa_vpgm_loader.py`: `get_template_by_id`;
* `build_vpgm_llm_prompt.py`: `pretty`, `build_vpgm_prompt`.

Modelling conventions:

* JSON values are the inductive `JVal`.  Python dicts become association
  lists preserving insertion order (Python 3.7+ dict semantics);
  JSON numbers are decimal pairs `jnum m e` denoting `m / 10^e`
  (`e = 0` is a Python `int`, `e > 0` a float printed in decimal form),
  which represents every literal the JSON grammar fragment used here can
  produce; arithmetic on them is exact (rational), which is the standard
  idealisation of Python float arithmetic — the claims under study never
  exercise rounding at the 1e-3 tolerance scale.
* Python exceptions become the error type `VErr` carried by `Except`;
  each constructor corresponds to one `raise` site (or to a builtin
  TypeError / KeyError / IndexError that Python duck typing can raise).
* `json.loads` is modelled by `loads`, a recursive-descent reader of the
  JSON grammar fragment relevant here (objects, arrays, strings with the
  standard escapes, decimal numbers without exponents, `true`/`false`/
  `null`, whitespace, whole-input strictness); `json.dumps` is `dumps`
  (compact separators) and `pretty` (indent 2), modelled with
  `ensure_ascii=False` escaping, matching `pretty` in
  `build_vpgm_llm_prompt.py`.
-/

set_option maxRecDepth 40000

/-- JSON values: the data manipulated by the Python code.  Numbers are
decimal mantissa/exponent pairs (value `m / 10^e`); objects keep insertion
order. -/
inductive JVal where
  | jnull
  | jbool (b : Bool)
  | jnum (m : Int) (e : Nat)
  | jstr (s : String)
  | jarr (xs : List JVal)
  | jobj (fs : List (String × JVal))

/-- Kernel-reducible power of ten (avoids well-founded `Monoid.npow`). -/
def pow10 : Nat → Nat
  | 0 => 1
  | e + 1 => 10 * pow10 e

/-- Rational value of a decimal pair; used in specification statements. -/
def numVal (m : Int) (e : Nat) : ℚ := (m : ℚ) / (10 : ℚ) ^ e

/-- Python truthiness (`bool(x)`) of a JSON value. -/
def JVal.truthy : JVal → Bool
  | .jnull => false
  | .jbool b => b
  | .jnum m _ => m != 0
  | .jstr s => s != ""
  | .jarr xs => !xs.isEmpty
  | .jobj fs => !fs.isEmpty

/-- Dictionary `d.get(k, default)` on an association list. -/
def lookupD (fs : List (String × JVal)) (k : String) (d : JVal) : JVal :=
  match List.lookup k fs with
  | some v => v
  | none => d

def JVal.isObj : JVal → Bool
  | .jobj _ => true
  | _ => false

def JVal.isArr : JVal → Bool
  | .jarr _ => true
  | _ => false

/-- Whether the first character list starts the second. -/
def startsWithL : List Char → List Char → Bool
  | [], _ => true
  | _ :: _, [] => false
  | a :: as, b :: bs => a == b && startsWithL as bs

/-- Whether the first character list occurs contiguously in the second
(Python `sub in s` on strings). -/
def substrL : List Char → List Char → Bool
  | sub, [] => sub.isEmpty
  | sub, l@(_ :: rest) => startsWithL sub l || substrL sub rest

mutual
/-- Python `==` on JSON values: numbers compare by value (`True == 1`,
`1 == 1.0`), lists element-wise, dicts by key set and values (order
independent). -/
def pyEq : JVal → JVal → Bool
  | .jnull, .jnull => true
  | .jbool a, .jbool b => a == b
  | .jbool a, .jnum m e => m == (if a then (pow10 e : Int) else 0)
  | .jnum m e, .jbool b => m == (if b then (pow10 e : Int) else 0)
  | .jnum m e, .jnum m' e' => m * (pow10 e' : Int) == m' * (pow10 e : Int)
  | .jstr a, .jstr b => a == b
  | .jarr xs, .jarr ys => pyEqL xs ys
  | .jobj fs, .jobj gs => fs.length == gs.length && pyEqF fs gs
  | _, _ => false
  termination_by structural a _ => a

/-- Element-wise Python equality of two lists. -/
def pyEqL : List JVal → List JVal → Bool
  | [], [] => true
  | x :: xs, y :: ys => pyEq x y && pyEqL xs ys
  | _, _ => false
  termination_by structural a _ => a

/-- Python dict equality: every key of the first maps to an equal value in
the second (lengths are compared by the caller). -/
def pyEqF : List (String × JVal) → List (String × JVal) → Bool
  | [], _ => true
  | (k, v) :: fs, gs =>
    (match List.lookup k gs with
     | some w => pyEq v w
     | none => false) && pyEqF fs gs
  termination_by structural a _ => a
end

/-- Errors: one constructor per `raise` site in the Python sources, plus
the builtin exceptions that Python duck typing can produce.  All of them
are subclasses of `Exception`, hence caught by the retry loop. -/
inductive VErr where
  | emptyDict
  | notANumber (k : String)
  | outOfRange (k : String)
  | badSum (n : Int) (e : Nat)
  | missingTopLevel (k : String)
  | templateIdMismatch (expected got : JVal)
  | missingLatent (name : JVal)
  | missingStateProbs (name : JVal)
  | missingJustification (name : JVal)
  | missingOptionProbs
  | missingSelectedAnswer
  | selectedNotInOptions (sel : JVal)
  | noJsonFound
  | invalidJson
  | templateNotFound (tid : String)
  | typeError
  | keyError (k : JVal)
  | indexError
  | oracleFailure (msg : String)
  | exhaustedRetries (last : Option VErr)

/-- Python `item in container` (`in` operator): key membership for dicts,
element membership for lists, substring test for strings; `TypeError`
for non-containers and for unhashable dict keys. -/
def pyContains (container item : JVal) : Except VErr Bool :=
  match container with
  | .jobj fs =>
    match item with
    | .jarr _ => .error .typeError
    | .jobj _ => .error .typeError
    | _ => .ok (fs.any fun kv => pyEq item (.jstr kv.1))
  | .jarr xs => .ok (xs.any (pyEq item))
  | .jstr s =>
    match item with
    | .jstr sub => .ok (substrL sub.data s.data)
    | _ => .error .typeError
  | _ => .error .typeError

/-- Python subscription `container[key]`: dict lookup (KeyError when the
key is missing), list/str indexing by integers, `TypeError` otherwise. -/
def pyIndex (container key : JVal) : Except VErr JVal :=
  match container with
  | .jobj fs =>
    match key with
    | .jarr _ => .error .typeError
    | .jobj _ => .error .typeError
    | .jstr k =>
      match List.lookup k fs with
      | some v => .ok v
      | none => .error (.keyError key)
    | _ => .error (.keyError key)
  | .jarr xs =>
    match key with
    | .jnum m 0 =>
      if h : 0 ≤ m ∧ m.toNat < xs.length then .ok (xs.get ⟨m.toNat, h.2⟩)
      else if h' : 0 ≤ m + xs.length ∧ (m + xs.length).toNat < xs.length then
        .ok (xs.get ⟨(m + xs.length).toNat, h'.2⟩)
      else .error .indexError
    | .jbool b =>
      if h : (if b then 1 else 0) < xs.length then .ok (xs.get ⟨if b then 1 else 0, h⟩)
      else .error .indexError
    | _ => .error .typeError
  | .jstr s =>
    match key with
    | .jnum m 0 =>
      if h : 0 ≤ m ∧ m.toNat < s.data.length then .ok (.jstr ⟨[s.data.get ⟨m.toNat, h.2⟩]⟩)
      else if h' : 0 ≤ m + s.data.length ∧ (m + s.data.length).toNat < s.data.length then
        .ok (.jstr ⟨[s.data.get ⟨(m + s.data.length).toNat, h'.2⟩]⟩)
      else .error .indexError
    | _ => .error .typeError
  | _ => .error .typeError

/-- Python `container.get(k, default)` — `AttributeError` when the value
is not a dict. -/
def pyGetD (container : JVal) (k : String) (d : JVal) : Except VErr JVal :=
  match container with
  | .jobj fs => .ok (lookupD fs k d)
  | _ => .error .typeError

/-- Loop body of `validate_probability_dict` (vpgm_llm_client.py lines
131-137): typed per-entry checks and exact accumulation of the running
total.  The accumulator is the pair `(n, E)` denoting `n / 10^E`. -/
def sumProbs : List (String × JVal) → Int × Nat → Except VErr (Int × Nat)
  | [], acc => .ok acc
  | (k, v) :: rest, (n, E) =>
    match v with
    | .jbool b =>
      sumProbs rest (n + (if b then (pow10 E : Int) else 0), E)
    | .jnum m e =>
      if 0 ≤ m ∧ m ≤ (pow10 e : Int) then
        sumProbs rest (n * (pow10 e : Int) + m * (pow10 E : Int), E + e)
      else .error (.outOfRange k)
    | _ => .error (.notANumber k)

/-- Model of `validate_probability_dict(probs, tolerance=1e-3)`
(vpgm_llm_client.py lines 114-140).  The tolerance is the decimal
`tm / 10^te` (default `1e-3`); `isinstance(v, (int, float))` admits
booleans (`bool` subclasses `int` in Python), values must be in `[0, 1]`,
and the total must be within the tolerance of `1.0`.  A falsy argument
(`if not probs`) fails as empty; a truthy non-dict fails with the
`AttributeError` of `.items()`. -/
def validate_probability_dict (probs : JVal) (tm : Int := 1) (te : Nat := 3) :
    Except VErr Unit :=
  if !probs.truthy then .error .emptyDict
  else
    match probs with
    | .jobj fs =>
      match sumProbs fs (0, 0) with
      | .error e => .error e
      | .ok (n, E) =>
        if ((n - (pow10 E : Int)).natAbs * pow10 te : Int) > tm * (pow10 E : Int) then
          .error (.badSum n E)
        else .ok ()
    | _ => .error .typeError

/-- Step 1 helper: `for key in required_keys: if key not in instance`. -/
def checkKeysLoop (inst : JVal) : List String → Except VErr Unit
  | [] => .ok ()
  | k :: ks =>
    match pyContains inst (.jstr k) with
    | .error e => .error e
    | .ok true => checkKeysLoop inst ks
    | .ok false => .error (.missingTopLevel k)

/-- Step 1 of `validate_vpgm_instance_against_template` (lines 156-160):
all five top-level keys present, in the listed order. -/
def checkTopLevelKeys (inst : JVal) : Except VErr Unit :=
  checkKeysLoop inst
    ["template_id", "question_meta", "observed", "latent_posteriors", "answer_posterior"]

/-- Expected template id (lines 162-166): `template.get("id")`, replaced by
`template["instance_fields"].get("template_id")` whenever the former is
falsy (absent, null, empty string, zero, ...) and `instance_fields` is
present.  Absent keys and JSON `null` both appear to `.get` as Python
`None`, modelled by `jnull`. -/
def expectedId (tmpl : List (String × JVal)) : Except VErr JVal :=
  let e0 := lookupD tmpl "id" .jnull
  if !e0.truthy && (tmpl.lookup "instance_fields").isSome then
    match lookupD tmpl "instance_fields" .jnull with
    | .jobj g => .ok (lookupD g "template_id" .jnull)
    | _ => .error .typeError
  else .ok e0

/-- Step 2 (lines 162-169): the instance's `template_id` must equal the
expected id under Python `==`. -/
def checkTemplateId (inst : JVal) (tmpl : List (String × JVal)) : Except VErr Unit :=
  match expectedId tmpl with
  | .error err => .error err
  | .ok e =>
    match pyIndex inst (.jstr "template_id") with
    | .error err => .error err
    | .ok t => if pyEq t e then .ok () else .error (.templateIdMismatch e t)

/-- The declared latents `template.get("instance_fields", {}).get("latent_posteriors", {})`
(line 172). -/
def tmplLatents (tmpl : List (String × JVal)) : Except VErr JVal :=
  pyGetD (lookupD tmpl "instance_fields" (.jobj [])) "latent_posteriors" (.jobj [])

/-- Values produced by `for latent_name in template_latents`: keys for a
dict, elements for a list, one-character strings for a string, and
`TypeError` for non-iterables. -/
def latentIter : JVal → Except VErr (List JVal)
  | .jobj gs => .ok (gs.map fun kv => .jstr kv.1)
  | .jarr xs => .ok xs
  | .jstr s => .ok (s.data.map fun c => .jstr ⟨[c]⟩)
  | _ => .error .typeError

/-- Loop body over declared latents (lines 175-185): presence in the
instance, presence of `state_probabilities` and `justification`, then the
probability check of that latent's distribution — all for one latent
before moving to the next. -/
def latentBody (instLatents n : JVal) : Except VErr Unit :=
  match pyContains instLatents n with
  | .error err => .error err
  | .ok false => .error (.missingLatent n)
  | .ok true =>
    match pyIndex instLatents n with
    | .error err => .error err
    | .ok latent_data =>
      match pyContains latent_data (.jstr "state_probabilities") with
      | .error err => .error err
      | .ok false => .error (.missingStateProbs n)
      | .ok true =>
        match pyContains latent_data (.jstr "justification") with
        | .error err => .error err
        | .ok false => .error (.missingJustification n)
        | .ok true =>
          match pyIndex latent_data (.jstr "state_probabilities") with
          | .error err => .error err
          | .ok sp => validate_probability_dict sp

/-- The `for latent_name in template_latents` loop (lines 175-185): the
full body for one latent, then the next latent. -/
def latentLoop (instLatents : JVal) : List JVal → Except VErr Unit
  | [] => .ok ()
  | n :: rest =>
    match latentBody instLatents n with
    | .error err => .error err
    | .ok _ => latentLoop instLatents rest

/-- Steps 3-4 (lines 171-185), interleaved per declared latent. -/
def checkLatents (inst : JVal) (tmpl : List (String × JVal)) : Except VErr Unit :=
  match tmplLatents tmpl with
  | .error err => .error err
  | .ok tl =>
    match pyIndex inst (.jstr "latent_posteriors") with
    | .error err => .error err
    | .ok instLatents =>
      match latentIter tl with
      | .error err => .error err
      | .ok names => latentLoop instLatents names

/-- Step 5 (lines 187-194): `answer_posterior` has `option_probabilities`
and `selected_answer`, and `option_probabilities` passes the probability
check. -/
def checkAnswerPosterior (inst : JVal) : Except VErr Unit :=
  match pyIndex inst (.jstr "answer_posterior") with
  | .error err => .error err
  | .ok ap =>
    match pyContains ap (.jstr "option_probabilities") with
    | .error err => .error err
    | .ok false => .error .missingOptionProbs
    | .ok true =>
      match pyContains ap (.jstr "selected_answer") with
      | .error err => .error err
      | .ok false => .error .missingSelectedAnswer
      | .ok true =>
        match pyIndex ap (.jstr "option_probabilities") with
        | .error err => .error err
        | .ok op => validate_probability_dict op

/-- Step 6 (lines 196-201): `selected_answer` must be an element of
`instance.get("observed", {}).get("options")` whenever that value is a
non-empty list; skipped otherwise. -/
def checkSelectedAnswer (inst : JVal) : Except VErr Unit :=
  match pyIndex inst (.jstr "answer_posterior") with
  | .error err => .error err
  | .ok ap =>
    match pyGetD inst "observed" (.jobj []) with
    | .error err => .error err
    | .ok obsv =>
      match pyGetD obsv "options" .jnull with
      | .error err => .error err
      | .ok options =>
        match pyIndex ap (.jstr "selected_answer") with
        | .error err => .error err
        | .ok sel =>
          match options with
          | .jarr xs =>
            if xs.isEmpty then .ok ()
            else if xs.any (pyEq sel) then .ok ()
            else .error (.selectedNotInOptions sel)
          | _ => .ok ()

/-- Model of `validate_vpgm_instance_against_template(instance, template)`
(vpgm_llm_client.py lines 142-201): the five blocks in program order,
short-circuiting on the first failure. -/
def validate_vpgm_instance_against_template (inst : JVal)
    (tmpl : List (String × JVal)) : Except VErr Unit :=
  match checkTopLevelKeys inst with
  | .error err => .error err
  | .ok _ =>
    match checkTemplateId inst tmpl with
    | .error err => .error err
    | .ok _ =>
      match checkLatents inst tmpl with
      | .error err => .error err
      | .ok _ =>
        match checkAnswerPosterior inst with
        | .error err => .error err
        | .ok _ => checkSelectedAnswer inst

/-- Linear scan of `for t in templates_list` in `get_template_by_id`
(scienceqa_vpgm_loader.py lines 41-45): first entry whose `.get("id")`
equals the requested id; `AttributeError` on a non-dict entry. -/
def findTemplate (tid : String) : List JVal → Except VErr JVal
  | [] => .error (.templateNotFound tid)
  | t :: rest =>
    match t with
    | .jobj fs =>
      if pyEq (lookupD fs "id" .jnull) (.jstr tid) then .ok t
      else findTemplate tid rest
    | _ => .error .typeError

/-- Model of `get_template_by_id(template, template_id)`
(scienceqa_vpgm_loader.py lines 27-45): `template.get("templates", [])`
then the linear scan; iterating a non-list degenerates exactly as Python
iteration does (empty dict/string exhaust immediately, non-empty ones
reach `.get` on a non-dict, other types are not iterable). -/
def get_template_by_id (template : List (String × JVal)) (template_id : String) :
    Except VErr JVal :=
  match lookupD template "templates" (.jarr []) with
  | .jarr xs => findTemplate template_id xs
  | .jobj [] => .error (.templateNotFound template_id)
  | .jobj _ => .error .typeError
  | .jstr s => if s.isEmpty then .error (.templateNotFound template_id) else .error .typeError
  | _ => .error .typeError

/-- Decimal digit character (`n < 10`). -/
def digitChar (n : Nat) : Char := Char.ofNat (48 + n)

/-- Decimal digits of a natural number, most significant first; the fuel
(first argument) keeps the recursion kernel-reducible. -/
def digitsAux : Nat → Nat → List Char
  | 0, _ => []
  | f + 1, n => if n < 10 then [digitChar n] else digitsAux f (n / 10) ++ [digitChar (n % 10)]

/-- Decimal digits of `n` (e.g. `natDigits 120 = ['1','2','0']`). -/
def natDigits (n : Nat) : List Char := digitsAux (n + 1) n

/-- Left-pad a digit list with zeros to the given width. -/
def padZeros (w : Nat) (ds : List Char) : List Char :=
  List.replicate (w - ds.length) '0' ++ ds

/-- Unsigned decimal rendering of `a / 10^e`: plain digits when `e = 0`,
integer part, point and `e` fraction digits otherwise. -/
def numBody (a e : Nat) : List Char :=
  if e = 0 then natDigits a
  else natDigits (a / pow10 e) ++ '.' :: padZeros e (natDigits (a % pow10 e))

/-- Rendering of the decimal number `m / 10^e`, as Python `repr` prints
ints (`e = 0`) and decimally-representable floats (`e > 0`). -/
def numChars (m : Int) (e : Nat) : List Char :=
  (if m < 0 then ['-'] else []) ++ numBody m.natAbs e

/-- Lowercase hexadecimal digit (`n < 16`). -/
def hexDigChar (n : Nat) : Char :=
  if n < 10 then digitChar n else Char.ofNat (87 + n)

/-- JSON escaping of one character, as `json.dumps(..., ensure_ascii=False)`
emits it: the two mandatory escapes, short escapes for the common control
characters, `\u00XX` for the remaining control characters, everything else
verbatim. -/
def escapeChar (c : Char) : List Char :=
  if c = '"' then ['\\', '"']
  else if c = '\\' then ['\\', '\\']
  else if c = '\n' then ['\\', 'n']
  else if c = '\t' then ['\\', 't']
  else if c = '\r' then ['\\', 'r']
  else if c = Char.ofNat 8 then ['\\', 'b']
  else if c = Char.ofNat 12 then ['\\', 'f']
  else if c.toNat < 32 then
    ['\\', 'u', '0', '0', hexDigChar (c.toNat / 16), hexDigChar (c.toNat % 16)]
  else [c]

/-- JSON escaping of a character list. -/
def escapeL : List Char → List Char
  | [] => []
  | c :: cs => escapeChar c ++ escapeL cs

/-- A JSON string literal: quote, escaped content, quote. -/
def strChars (s : String) : List Char := '"' :: escapeL s.data ++ ['"']

mutual
/-- Characters of `json.dumps(v)` with the default compact separators
`(", ", ": ")`. -/
def dumpsVal : JVal → List Char
  | .jnull => 'n' :: 'u' :: 'l' :: 'l' :: []
  | .jbool true => 't' :: 'r' :: 'u' :: 'e' :: []
  | .jbool false => 'f' :: 'a' :: 'l' :: 's' :: 'e' :: []
  | .jnum m e => numChars m e
  | .jstr s => strChars s
  | .jarr xs => '[' :: dumpsItems xs ++ [']']
  | .jobj fs => '{' :: dumpsFields fs ++ ['}']
  termination_by structural v => v

/-- Array elements joined by `", "`. -/
def dumpsItems : List JVal → List Char
  | [] => []
  | [x] => dumpsVal x
  | x :: y :: xs => dumpsVal x ++ ',' :: ' ' :: dumpsItems (y :: xs)
  termination_by structural l => l

/-- Object entries `"key": value` joined by `", "`. -/
def dumpsFields : List (String × JVal) → List Char
  | [] => []
  | [(k, v)] => strChars k ++ ':' :: ' ' :: dumpsVal v
  | (k, v) :: g :: fs =>
    strChars k ++ ':' :: ' ' :: dumpsVal v ++ ',' :: ' ' :: dumpsFields (g :: fs)
  termination_by structural l => l
end

/-- Model of `json.dumps(v)` (compact form used by the round-trip spec). -/
def dumps (v : JVal) : String := ⟨dumpsVal v⟩

/-- Indentation of `n` spaces. -/
def indentC (n : Nat) : List Char := List.replicate n ' '

mutual
/-- Characters of `json.dumps(v, indent=2, ensure_ascii=False)` at
enclosing indentation `ind`: the rendering used by `pretty` in
`build_vpgm_llm_prompt.py`. -/
def prettyVal (ind : Nat) : JVal → List Char
  | .jnull => 'n' :: 'u' :: 'l' :: 'l' :: []
  | .jbool true => 't' :: 'r' :: 'u' :: 'e' :: []
  | .jbool false => 'f' :: 'a' :: 'l' :: 's' :: 'e' :: []
  | .jnum m e => numChars m e
  | .jstr s => strChars s
  | .jarr [] => '[' :: [']']
  | .jarr (x :: xs) =>
    '[' :: '\n' :: prettyItems (ind + 2) (x :: xs) ++ '\n' :: indentC ind ++ [']']
  | .jobj [] => '{' :: ['}']
  | .jobj (f :: fs) =>
    '{' :: '\n' :: prettyFields (ind + 2) (f :: fs) ++ '\n' :: indentC ind ++ ['}']
  termination_by structural v => v

/-- Indented array elements joined by `",\n"`. -/
def prettyItems (ind : Nat) : List JVal → List Char
  | [] => []
  | [x] => indentC ind ++ prettyVal ind x
  | x :: y :: xs =>
    indentC ind ++ prettyVal ind x ++ ',' :: '\n' :: prettyItems ind (y :: xs)
  termination_by structural l => l

/-- Indented object entries joined by `",\n"`. -/
def prettyFields (ind : Nat) : List (String × JVal) → List Char
  | [] => []
  | [(k, v)] => indentC ind ++ strChars k ++ ':' :: ' ' :: prettyVal ind v
  | (k, v) :: g :: fs =>
    indentC ind ++ strChars k ++ ':' :: ' ' :: prettyVal ind v ++
      ',' :: '\n' :: prettyFields ind (g :: fs)
  termination_by structural l => l
end

/-- Model of `pretty(obj)` = `json.dumps(obj, indent=2, ensure_ascii=False)`
(build_vpgm_llm_prompt.py lines 5-15). -/
def pretty (v : JVal) : String := ⟨prettyVal 0 v⟩

/-- JSON whitespace accepted between tokens by `json.loads`. -/
def isWsChar (c : Char) : Bool := c = ' ' || c = '\t' || c = '\n' || c = '\r'

/-- Drop leading JSON whitespace. -/
def skipWs : List Char → List Char
  | [] => []
  | c :: cs => if isWsChar c then skipWs cs else c :: cs

/-- Value of a hexadecimal digit, either case. -/
def hexVal (c : Char) : Option Nat :=
  if '0' ≤ c ∧ c ≤ '9' then some (c.toNat - 48)
  else if 'a' ≤ c ∧ c ≤ 'f' then some (c.toNat - 87)
  else if 'A' ≤ c ∧ c ≤ 'F' then some (c.toNat - 55)
  else none

/-- Unescaping of a single-character JSON escape. -/
def unescChar (c : Char) : Option Char :=
  if c = '"' then some '"'
  else if c = '\\' then some '\\'
  else if c = '/' then some '/'
  else if c = 'n' then some '\n'
  else if c = 't' then some '\t'
  else if c = 'r' then some '\r'
  else if c = 'b' then some (Char.ofNat 8)
  else if c = 'f' then some (Char.ofNat 12)
  else none

/-- Body of a JSON string literal after the opening quote: content up to
the closing quote, plus the remaining input.  Unescaped control
characters are rejected (strict mode), as are `\uXXXX` escapes in the
surrogate range, which have no counterpart among Lean scalar values.
The fuel (first argument) bounds the number of decoded characters; one
unit is spent per decoded character, so any fuel above the input length
is enough. -/
def parseStrAux : Nat → List Char → Option (List Char × List Char)
  | 0, _ => none
  | _ + 1, [] => none
  | f + 1, c :: rest =>
    if c = '"' then some ([], rest)
    else if c = '\\' then
      match rest with
      | 'u' :: h1 :: h2 :: h3 :: h4 :: rest' =>
        match hexVal h1, hexVal h2, hexVal h3, hexVal h4 with
        | some a, some b, some c', some d =>
          let n := ((a * 16 + b) * 16 + c') * 16 + d
          if 0xD800 ≤ n ∧ n ≤ 0xDFFF then none
          else (parseStrAux f rest').map fun p => (Char.ofNat n :: p.1, p.2)
        | _, _, _, _ => none
      | e :: rest' =>
        match unescChar e with
        | some d => (parseStrAux f rest').map fun p => (d :: p.1, p.2)
        | none => none
      | [] => none
    else if c.toNat < 32 then none
    else (parseStrAux f rest).map fun p => (c :: p.1, p.2)

/-- Longest leading run of decimal digits. -/
def takeDigits : List Char → List Char × List Char
  | [] => ([], [])
  | c :: cs =>
    if c.isDigit then
      let p := takeDigits cs
      (c :: p.1, p.2)
    else ([], c :: cs)

/-- Numeric value of a digit list. -/
def digitsVal (ds : List Char) : Nat :=
  ds.foldl (fun a c => 10 * a + (c.toNat - 48)) 0

/-- Unsigned JSON number after an optional sign: integer digits (no
leading zero except `0` itself), optional fraction.  Returns mantissa and
number of fraction digits. -/
def parseNumCore (cs : List Char) : Option ((Nat × Nat) × List Char) :=
  match takeDigits cs with
  | ([], _) => none
  | (d :: ds, r) =>
    if d = '0' ∧ ds ≠ [] then none
    else if r.head? = some '.' then
      match takeDigits r.tail with
      | ([], _) => none
      | (f :: fs, r3) => some ((digitsVal (d :: ds ++ f :: fs), (f :: fs).length), r3)
    else some ((digitsVal (d :: ds), 0), r)

/-- Parsing mode: a single value, the tail of an array, the tail of an
object. -/
inductive PMode where
  | val
  | items
  | fields

/-- Parsing result for each mode. -/
inductive PRes where
  | v (x : JVal)
  | vs (xs : List JVal)
  | kvs (fs : List (String × JVal))

/-- Fueled recursive-descent reader for the JSON grammar fragment (the
modes share one function so that the recursion is structural on the fuel
and the definition kernel-reducible).  In mode `val` the input starts at
a value (leading whitespace already skipped); `items` and `fields` read
the comma-separated tails of non-empty arrays and objects, consuming the
closing bracket. -/
def parseF : Nat → PMode → List Char → Option (PRes × List Char)
  | 0, _, _ => none
  | f + 1, .val, cs =>
    match cs with
    | [] => none
    | c :: rest =>
      if c = '{' then
        let r1 := skipWs rest
        if r1.head? = some '}' then some (.v (.jobj []), r1.tail)
        else
          match parseF f .fields r1 with
          | some (.kvs fs, r2) => some (.v (.jobj fs), r2)
          | _ => none
      else if c = '[' then
        let r1 := skipWs rest
        if r1.head? = some ']' then some (.v (.jarr []), r1.tail)
        else
          match parseF f .items r1 with
          | some (.vs xs, r2) => some (.v (.jarr xs), r2)
          | _ => none
      else if c = '"' then
        (parseStrAux (rest.length + 1) rest).map fun p => (.v (.jstr ⟨p.1⟩), p.2)
      else if c = '-' then
        (parseNumCore rest).map fun p => (.v (.jnum (-(p.1.1 : Int)) p.1.2), p.2)
      else if c = 'n' then
        match rest with
        | 'u' :: 'l' :: 'l' :: r => some (.v .jnull, r)
        | _ => none
      else if c = 't' then
        match rest with
        | 'r' :: 'u' :: 'e' :: r => some (.v (.jbool true), r)
        | _ => none
      else if c = 'f' then
        match rest with
        | 'a' :: 'l' :: 's' :: 'e' :: r => some (.v (.jbool false), r)
        | _ => none
      else if c.isDigit then
        (parseNumCore (c :: rest)).map fun p => (.v (.jnum (p.1.1 : Int) p.1.2), p.2)
      else none
  | f + 1, .items, cs =>
    match parseF f .val cs with
    | some (.v x, r1) =>
      match skipWs r1 with
      | ',' :: r3 =>
        match parseF f .items (skipWs r3) with
        | some (.vs xs, r4) => some (.vs (x :: xs), r4)
        | _ => none
      | ']' :: r3 => some (.vs [x], r3)
      | _ => none
    | _ => none
  | f + 1, .fields, cs =>
    match cs with
    | '"' :: rest =>
      match parseStrAux (rest.length + 1) rest with
      | some (kcs, r1) =>
        match skipWs r1 with
        | ':' :: r2 =>
          match parseF f .val (skipWs r2) with
          | some (.v x, r3) =>
            match skipWs r3 with
            | ',' :: r5 =>
              match parseF f .fields (skipWs r5) with
              | some (.kvs fs, r6) => some (.kvs ((⟨kcs⟩, x) :: fs), r6)
              | _ => none
            | '}' :: r5 => some (.kvs [(⟨kcs⟩, x)], r5)
            | _ => none
          | _ => none
        | _ => none
      | none => none
    | _ => none

/-- Model of `json.loads(s)` restricted to the grammar fragment described
at the top of the file: parse one value, then require only whitespace to
remain (whole-input strictness). -/
def loads (s : String) : Option JVal :=
  match parseF (s.data.length + 1) .val (skipWs s.data) with
  | some (.v x, rest) => if (skipWs rest).isEmpty then some x else none
  | _ => none

/-- Index of the first occurrence of `c`, scanning left to right. -/
def firstIdxAux (c : Char) : List Char → Option Nat
  | [] => none
  | a :: as => if a = c then some 0 else (firstIdxAux c as).map (· + 1)

/-- Index of the first occurrence of a character (`str.find`, `-1` becomes
`none`). -/
def firstIdx (cs : List Char) (c : Char) : Option Nat := firstIdxAux c cs

/-- Index of the last occurrence of a character (`str.rfind`). -/
def lastIdx (cs : List Char) (c : Char) : Option Nat :=
  match firstIdxAux c cs.reverse with
  | some i => some (cs.length - 1 - i)
  | none => none

/-- The substring `raw[s : e + 1]` of Python slicing. -/
def strSlice (raw : String) (s e : Nat) : String :=
  ⟨(raw.data.drop s).take (e + 1 - s)⟩

/-- Model of `extract_json_from_text(raw_output)` (vpgm_llm_client.py
lines 63-96): accept the whole text if it parses as JSON; otherwise take
the substring from the first `{` to the last `}` and accept it if it
parses; fail with the extraction error otherwise. -/
def extract_json_from_text (raw : String) : Except VErr String :=
  if (loads raw).isSome then .ok raw
  else
    match firstIdx raw.data '{', lastIdx raw.data '}' with
    | some s, some e =>
      if s > e then .error .noJsonFound
      else if (loads (strSlice raw s e)).isSome then .ok (strSlice raw s e)
      else .error .invalidJson
    | _, _ => .error .noJsonFound

/-- Model of `parse_vpgm_instance(raw_output)` (lines 98-112): extraction
followed by `json.loads`. -/
def parse_vpgm_instance (raw : String) : Except VErr JVal :=
  match extract_json_from_text raw with
  | .error e => .error e
  | .ok js =>
    match loads js with
    | some v => .ok v
    | none => .error .invalidJson

/-- Model of `build_vpgm_prompt(skeleton, template)`
(build_vpgm_llm_prompt.py lines 17-73): the fixed prompt parts joined by
newlines, with the four pretty-printed renderings in their places.  The
`ensure_json_output` parameter exists in the source signature but is
never read. -/
def build_vpgm_prompt (skeleton template : List (String × JVal))
    (ensure_json_output : Bool := true) : String :=
  let observed_str := pretty (lookupD skeleton "observed" (.jobj []))
  let meta_str := pretty (lookupD skeleton "question_meta" (.jobj []))
  let cpd_templates_str := pretty (lookupD template "verbal_cpd_templates" (.jobj []))
  let instance_fields_str := pretty (lookupD template "instance_fields" (.jobj []))
  let _ := ensure_json_output
  String.intercalate "\n"
    [ "You are performing verbalized probabilistic graphical model inference.",
      "",
      "### Task",
      "",
      "Given the following ScienceQA question, fill in the missing latent_posteriors and answer_posterior according to the template.",
      "",
      "### Observed Data",
      "",
      observed_str,
      "",
      "### Metadata",
      "",
      meta_str,
      "",
      "### Latent Variable Instructions",
      "",
      "For each latent variable, follow these instructions:",
      cpd_templates_str,
      "",
      "### Output Format (MUST match exactly)",
      "",
      "You must output ONLY a JSON object with the following structure:",
      instance_fields_str,
      "",
      "### Your Output",
      "",
      "Fill in:",
      "",
      "* latent_posteriors",
      "* answer_posterior",
      "",
      "Produce only valid JSON." ]

/-- One attempt of the retry loop (vpgm_llm_client.py lines 234-238): the
oracle reply (or its failure), extraction and parsing, then validation;
any error is the attempt's failure, caught by the loop. -/
def attemptOnce (tmpl : List (String × JVal)) (reply : Except VErr String) :
    Except VErr JVal :=
  match reply with
  | .error e => .error e
  | .ok raw =>
    match parse_vpgm_instance raw with
    | .error e => .error e
    | .ok inst =>
      match validate_vpgm_instance_against_template inst tmpl with
      | .error e => .error e
      | .ok _ => .ok inst

/-- The retry loop of `infer_vpgm_for_skeleton` (lines 231-244), with the
number of oracle calls made recorded in the second component.  `k` is the
index of the next attempt, the second `Nat` the remaining attempts, and
the `Option VErr` the Python `last_error` variable. -/
def retryFrom (tmpl : List (String × JVal)) (prompt : String)
    (oracle : Nat → String → Except VErr String) :
    Nat → Nat → Option VErr → Except VErr JVal × Nat
  | _, 0, last => (.error (.exhaustedRetries last), 0)
  | k, m + 1, _ =>
    match attemptOnce tmpl (oracle k prompt) with
    | .ok inst => (.ok inst, 1)
    | .error e =>
      let r := retryFrom tmpl prompt oracle (k + 1) m (some e)
      (r.1, r.2 + 1)

/-- Model of `infer_vpgm_for_skeleton(skeleton, template_full,
template_id, model, max_retries, ...)` (vpgm_llm_client.py lines
203-244).  The oracle is modelled as the sequence of replies it would
give to successive calls (each receives the compiled prompt); the result
is paired with the number of oracle calls made.  Template resolution and
prompt compilation happen before the loop and outside the `try`, so their
errors propagate with zero oracle calls. -/
def infer_vpgm_for_skeleton (skeleton template_full : List (String × JVal))
    (template_id : String) (max_retries : Nat)
    (oracle : Nat → String → Except VErr String) : Except VErr JVal × Nat :=
  match get_template_by_id template_full template_id with
  | .error e => (.error e, 0)
  | .ok (.jobj tmpl) =>
    retryFrom tmpl (build_vpgm_prompt skeleton tmpl) oracle 0 max_retries none
  | .ok _ => (.error .typeError, 0)

/-! Specification-side views used in theorem statements. -/

/-- Rational value of a JSON value when Python's
`isinstance(v, (int, float))` accepts it (booleans included, since `bool`
subclasses `int`). -/
def pyNumQ : JVal → Option ℚ
  | .jnum m e => some (numVal m e)
  | .jbool b => some (if b then 1 else 0)
  | _ => none

/-- Sum of the numeric values of a probability mapping. -/
def sumQ (fs : List (String × JVal)) : ℚ :=
  (fs.map fun kv => ((pyNumQ kv.2).getD 0)).sum

/-! Arithmetic bridging lemmas between the kernel-reducible integer
implementation and the rational specification view. -/

theorem pow10_pos (e : Nat) : 0 < pow10 e := by
  induction e with
  | zero => simp [pow10]
  | succ e ih =>
    simp only [pow10]
    exact Nat.mul_pos (by norm_num) ih

theorem pow10_cast_q (e : Nat) : ((pow10 e : Nat) : ℚ) = (10 : ℚ) ^ e := by
  induction e with
  | zero => simp [pow10]
  | succ e ih =>
    push_cast [pow10]
    rw [ih]
    ring

theorem pow10_cast_int_q (e : Nat) : (((pow10 e : Nat) : Int) : ℚ) = (10 : ℚ) ^ e := by
  rw [Int.cast_natCast, pow10_cast_q]

theorem numVal_le_numVal_iff (m m' : Int) (e e' : Nat) :
    numVal m e ≤ numVal m' e' ↔ m * (pow10 e' : Int) ≤ m' * (pow10 e : Int) := by
  unfold numVal
  rw [div_le_div_iff₀ (by positivity) (by positivity)]
  constructor
  · intro h
    have : ((m * (pow10 e' : Int) : Int) : ℚ) ≤ ((m' * (pow10 e : Int) : Int) : ℚ) := by
      push_cast [pow10_cast_q]
      exact h
    exact_mod_cast this
  · intro h
    have : ((m * (pow10 e' : Int) : Int) : ℚ) ≤ ((m' * (pow10 e : Int) : Int) : ℚ) := by
      exact_mod_cast h
    push_cast [pow10_cast_q] at this
    exact this

theorem numVal_nonneg_iff (m : Int) (e : Nat) : 0 ≤ numVal m e ↔ 0 ≤ m := by
  rw [numVal, le_div_iff₀ (by positivity), zero_mul]
  exact ⟨fun h => by exact_mod_cast h, fun h => by exact_mod_cast h⟩

theorem numVal_le_one_iff (m : Int) (e : Nat) : numVal m e ≤ 1 ↔ m ≤ (pow10 e : Int) := by
  rw [numVal, div_le_one (by positivity), ← pow10_cast_int_q]
  exact ⟨fun h => by exact_mod_cast h, fun h => by exact_mod_cast h⟩

theorem numVal_add (a b : Int) (e e' : Nat) :
    numVal (a * (pow10 e' : Int) + b * (pow10 e : Int)) (e + e') = numVal a e + numVal b e' := by
  unfold numVal
  push_cast [pow10_cast_q]
  rw [div_add_div _ _ (by positivity) (by positivity), pow_add]
  ring_nf

theorem numVal_sub (a b : Int) (e : Nat) : numVal a e - numVal b e = numVal (a - b) e := by
  unfold numVal
  rw [div_sub_div_same]
  push_cast
  ring_nf

theorem numVal_pow10_self (E : Nat) : numVal ((pow10 E : Nat) : Int) E = 1 := by
  unfold numVal
  rw [pow10_cast_int_q, div_self (by positivity)]

theorem numVal_zero (E : Nat) : numVal 0 E = 0 := by
  simp [numVal]

theorem numVal_add_same (a b : Int) (E : Nat) :
    numVal (a + b) E = numVal a E + numVal b E := by
  unfold numVal
  push_cast
  rw [add_div]

/-- A value Python's probability loop accepts: numeric (`int`, `float` or
`bool`) with value in `[0, 1]`. -/
def entryOk (v : JVal) : Prop := ∃ q : ℚ, pyNumQ v = some q ∧ 0 ≤ q ∧ q ≤ 1

theorem sumQ_cons (kv : String × JVal) (rest : List (String × JVal)) :
    sumQ (kv :: rest) = (pyNumQ kv.2).getD 0 + sumQ rest := by
  simp [sumQ]

theorem sumProbs_ok_of (fs : List (String × JVal)) (h : ∀ kv ∈ fs, entryOk kv.2) :
    ∀ acc : Int × Nat, ∃ r, sumProbs fs acc = .ok r ∧
      numVal r.1 r.2 = numVal acc.1 acc.2 + sumQ fs := by
  induction fs with
  | nil => intro acc; exact ⟨acc, rfl, by simp [sumQ]⟩
  | cons kv rest ih =>
    intro acc
    obtain ⟨k, v⟩ := kv
    obtain ⟨n, E⟩ := acc
    obtain ⟨q, hq, hq0, hq1⟩ := h (k, v) (by simp)
    have hrest : ∀ kv ∈ rest, entryOk kv.2 := fun kv hkv => h kv (by simp [hkv])
    match v, hq with
    | .jbool b, hq =>
      obtain ⟨r, hr, hval⟩ := ih hrest (n + (if b then (pow10 E : Int) else 0), E)
      refine ⟨r, by simpa [sumProbs] using hr, ?_⟩
      rw [hval, sumQ_cons, numVal_add_same]
      have : numVal (if b then ((pow10 E : Nat) : Int) else 0) E = (pyNumQ (.jbool b)).getD 0 := by
        cases b <;> simp [pyNumQ, numVal_pow10_self, numVal_zero]
      rw [this]
      ring
    | .jnum m e, hq =>
      have hm : 0 ≤ m ∧ m ≤ (pow10 e : Int) := by
        injection hq with hq'
        subst hq'
        exact ⟨(numVal_nonneg_iff m e).1 hq0, (numVal_le_one_iff m e).1 hq1⟩
      obtain ⟨r, hr, hval⟩ := ih hrest (n * (pow10 e : Int) + m * (pow10 E : Int), E + e)
      refine ⟨r, by simp [sumProbs, hm]; exact hr, ?_⟩
      rw [hval, sumQ_cons, numVal_add]
      simp [pyNumQ]
      ring
    | .jnull, hq => simp [pyNumQ] at hq
    | .jstr s, hq => simp [pyNumQ] at hq
    | .jarr xs, hq => simp [pyNumQ] at hq
    | .jobj gs, hq => simp [pyNumQ] at hq

theorem sumProbs_err_of (fs : List (String × JVal))
    (h : ¬ ∀ kv ∈ fs, entryOk kv.2) :
    ∀ acc : Int × Nat, ∃ e, sumProbs fs acc = .error e := by
  induction fs with
  | nil => exact absurd (by simp) h
  | cons kv rest ih =>
    intro acc
    obtain ⟨k, v⟩ := kv
    obtain ⟨n, E⟩ := acc
    by_cases hv : entryOk v
    · have hrest : ¬ ∀ kv ∈ rest, entryOk kv.2 := by
        intro hall
        exact h (by
          intro kv hkv
          rcases List.mem_cons.1 hkv with h1 | h2
          · subst h1; exact hv
          · exact hall kv h2)
      obtain ⟨q, hq, hq0, hq1⟩ := hv
      match v, hq with
      | .jbool b, hq =>
        obtain ⟨e, he⟩ := ih hrest (n + (if b then (pow10 E : Int) else 0), E)
        exact ⟨e, by simpa [sumProbs] using he⟩
      | .jnum m e, hq =>
        have hm : 0 ≤ m ∧ m ≤ (pow10 e : Int) := by
          injection hq with hq'
          subst hq'
          exact ⟨(numVal_nonneg_iff m e).1 hq0, (numVal_le_one_iff m e).1 hq1⟩
        obtain ⟨e', he⟩ := ih hrest (n * (pow10 e : Int) + m * (pow10 E : Int), E + e)
        exact ⟨e', by simp [sumProbs, hm]; exact he⟩
      | .jnull, hq => simp [pyNumQ] at hq
      | .jstr s, hq => simp [pyNumQ] at hq
      | .jarr xs, hq => simp [pyNumQ] at hq
      | .jobj gs, hq => simp [pyNumQ] at hq
    · match v with
      | .jbool b => exact absurd ⟨if b then 1 else 0, rfl, by cases b <;> norm_num⟩ hv
      | .jnum m e =>
        by_cases hm : 0 ≤ m ∧ m ≤ (pow10 e : Int)
        · exact absurd ⟨numVal m e, rfl,
            (numVal_nonneg_iff m e).2 hm.1, (numVal_le_one_iff m e).2 hm.2⟩ hv
        · exact ⟨.outOfRange k, by simp [sumProbs, hm]⟩
      | .jnull => exact ⟨.notANumber k, by simp [sumProbs]⟩
      | .jstr s => exact ⟨.notANumber k, by simp [sumProbs]⟩
      | .jarr xs => exact ⟨.notANumber k, by simp [sumProbs]⟩
      | .jobj gs => exact ⟨.notANumber k, by simp [sumProbs]⟩

theorem abs_numVal (a : Int) (E : Nat) : |numVal a E| = numVal (a.natAbs : Int) E := by
  unfold numVal
  rw [abs_div, abs_of_pos (show (0:ℚ) < (10:ℚ) ^ E by positivity)]
  congr 1
  rw [← Int.cast_abs]
  norm_cast

theorem tol_le_iff (n : Int) (E : Nat) (tm : Int) (te : Nat) :
    (((n - (pow10 E : Int)).natAbs : Int) * ((pow10 te : Nat) : Int) ≤ tm * (pow10 E : Int)) ↔
      |numVal n E - 1| ≤ numVal tm te := by
  rw [show (1:ℚ) = numVal ((pow10 E : Nat) : Int) E from (numVal_pow10_self E).symm,
    numVal_sub, abs_numVal, numVal_le_numVal_iff]

/-- C1: `validate_probability_dict(M, t)` succeeds exactly when the
mapping is non-empty, every value is numeric (Python `isinstance(v, (int,
float))`, which admits booleans) with value in `[0, 1]`, and the sum of
the values deviates from `1.0` by at most the tolerance `tm / 10^te`
(default `1e-3`); otherwise it fails with a `ValueError`.  In particular
a mapping of in-range values summing to `0.5` fails at the default
tolerance, since `|0.5 - 1| > 1e-3`. -/
theorem c1_validate_probability_dict_iff :
    ∀ (fs : List (String × JVal)) (tm : Int) (te : Nat),
    validate_probability_dict (.jobj fs) tm te = .ok () ↔
      (fs ≠ [] ∧ (∀ kv ∈ fs, entryOk kv.2) ∧ |sumQ fs - 1| ≤ numVal tm te) := by
  intro fs tm te
  by_cases hfs : fs = []
  · subst hfs
    simp [validate_probability_dict, JVal.truthy]
  · have htruthy : (JVal.jobj fs).truthy = true := by
      simp [JVal.truthy, List.isEmpty_iff, hfs]
    by_cases hall : ∀ kv ∈ fs, entryOk kv.2
    · obtain ⟨r, hr, hval⟩ := sumProbs_ok_of fs hall (0, 0)
      have hval' : numVal r.1 r.2 = sumQ fs := by
        rw [hval, numVal_zero, zero_add]
      obtain ⟨n, E⟩ := r
      simp only [validate_probability_dict, htruthy, Bool.not_true, Bool.false_eq_true,
        if_false, hr]
      simp only at hval'
      constructor
      · intro h
        refine ⟨hfs, hall, ?_⟩
        rw [← hval']
        rw [← tol_le_iff n E tm te]
        by_contra hgt
        push_neg at hgt
        have : ¬ (((n - (pow10 E : Int)).natAbs * pow10 te : Int) > tm * (pow10 E : Int)) := by
          intro hc
          rw [if_pos hc] at h
          exact Except.noConfusion h
        apply this
        push_cast
        push_cast at hgt
        exact hgt
      · rintro ⟨-, -, hle⟩
        rw [← hval', ← tol_le_iff n E tm te] at hle
        have : ¬ (((n - (pow10 E : Int)).natAbs * pow10 te : Int) > tm * (pow10 E : Int)) := by
          push_neg
          push_cast
          push_cast at hle
          exact hle
        rw [if_neg this]
    · obtain ⟨e, he⟩ := sumProbs_err_of fs hall (0, 0)
      have he' : sumProbs fs 0 = Except.error e := he
      simp only [validate_probability_dict, htruthy, Bool.not_true, Bool.false_eq_true,
        if_false, he, he']
      constructor
      · intro h
        exact Except.noConfusion h
      · rintro ⟨-, hB, -⟩
        exact absurd hB hall

/-! Short-circuit lemmas for the validator pipeline, shared by several
claims below. -/

theorem validate_eq_of_ok4 (inst : JVal) (tmpl : List (String × JVal))
    (h1 : checkTopLevelKeys inst = .ok ())
    (h2 : checkTemplateId inst tmpl = .ok ())
    (h3 : checkLatents inst tmpl = .ok ())
    (h4 : checkAnswerPosterior inst = .ok ()) :
    validate_vpgm_instance_against_template inst tmpl = checkSelectedAnswer inst := by
  unfold validate_vpgm_instance_against_template
  rw [h1, h2, h3, h4]

theorem validate_stage2_of_ok1 (inst : JVal) (tmpl : List (String × JVal))
    (h1 : checkTopLevelKeys inst = .ok ()) (e : VErr)
    (h2 : checkTemplateId inst tmpl = .error e) :
    validate_vpgm_instance_against_template inst tmpl = .error e := by
  unfold validate_vpgm_instance_against_template
  rw [h1, h2]

theorem validate_ok_stages (inst : JVal) (tmpl : List (String × JVal))
    (h : validate_vpgm_instance_against_template inst tmpl = .ok ()) :
    checkTopLevelKeys inst = .ok () ∧ checkTemplateId inst tmpl = .ok () ∧
      checkLatents inst tmpl = .ok () ∧ checkAnswerPosterior inst = .ok () ∧
      checkSelectedAnswer inst = .ok () := by
  unfold validate_vpgm_instance_against_template at h
  cases h1 : checkTopLevelKeys inst with
  | error e => rw [h1] at h; exact absurd h (by simp)
  | ok u =>
    cases u
    rw [h1] at h
    cases h2 : checkTemplateId inst tmpl with
    | error e => rw [h2] at h; exact absurd h (by simp)
    | ok u =>
      cases u
      rw [h2] at h
      cases h3 : checkLatents inst tmpl with
      | error e => rw [h3] at h; exact absurd h (by simp)
      | ok u =>
        cases u
        rw [h3] at h
        cases h4 : checkAnswerPosterior inst with
        | error e => rw [h4] at h; exact absurd h (by simp)
        | ok u =>
          cases u
          rw [h4] at h
          exact ⟨rfl, rfl, rfl, rfl, h⟩

/-- C4: the prompt compiler is a pure deterministic function — identical
skeleton/template inputs yield byte-identical prompt strings — and the
indented rendering (the `pretty` of `build_vpgm_llm_prompt.py`) emits
object keys in insertion order: a mapping inserted as `b` then `a`
renders with `"b"` on the first line and `"a"` on the second, not
alphabetized, and reordering the entries changes the output. -/
theorem c4_build_vpgm_prompt_deterministic :
    (∀ (sk tmpl sk' tmpl' : List (String × JVal)), sk = sk' → tmpl = tmpl' →
      build_vpgm_prompt sk tmpl = build_vpgm_prompt sk' tmpl') ∧
    pretty (.jobj [("b", .jnum 1 0), ("a", .jnum 2 0)]) =
      "\x7b\n  \"b\": 1,\n  \"a\": 2\n\x7d" ∧
    pretty (.jobj [("b", .jnum 1 0), ("a", .jnum 2 0)]) ≠
      pretty (.jobj [("a", .jnum 2 0), ("b", .jnum 1 0)]) := by
  refine ⟨?_, rfl, ?_⟩
  · intro sk tmpl sk' tmpl' h1 h2
    rw [h1, h2]
  · intro h
    have : ("\x7b\n  \"b\": 1,\n  \"a\": 2\n\x7d" : String) =
        "\x7b\n  \"a\": 2,\n  \"b\": 1\n\x7d" := h
    simp at this

/-- Witness for C4 at concrete inputs: the determinism conjunct applied
to a concrete skeleton/template pair. -/
theorem c4_build_vpgm_prompt_deterministic_witness :
    build_vpgm_prompt [("observed", .jobj [("q", .jstr "x")])] [("id", .jstr "T")] =
      build_vpgm_prompt [("observed", .jobj [("q", .jstr "x")])] [("id", .jstr "T")] :=
  c4_build_vpgm_prompt_deterministic.1 _ _ _ _ rfl rfl

/-- Template declaring latents in order `A` (present in the instances
below with an invalid distribution) then `B` (absent from them). -/
def tmplAB : List (String × JVal) :=
  [("id", .jstr "T"),
   ("instance_fields", .jobj [("latent_posteriors", .jobj [("A", .jnull), ("B", .jnull)])])]

/-- The same template with the latent declarations in the opposite order:
`B` (absent) first, `A` second. -/
def tmplBA : List (String × JVal) :=
  [("id", .jstr "T"),
   ("instance_fields", .jobj [("latent_posteriors", .jobj [("B", .jnull), ("A", .jnull)])])]

/-- An instance for `tmplAB`/`tmplBA`: latent `A` is present with both
sub-fields but its distribution sums to `0.4`; latent `B` is missing. -/
def instAM : JVal :=
  .jobj [("template_id", .jstr "T"), ("question_meta", .jnull), ("observed", .jobj []),
    ("latent_posteriors", .jobj [("A", .jobj
      [("state_probabilities", .jobj [("x", .jnum 2 1), ("y", .jnum 2 1)]),
       ("justification", .jstr "r")])]),
    ("answer_posterior", .jobj
      [("option_probabilities", .jobj [("A", .jnum 1 0)]), ("selected_answer", .jnull)])]

/-- Counterexample to C5 as stated: with latent `A` (invalid distribution,
declared first) and latent `B` (missing, declared second), the validator
reports the distribution violation of `A` — `badSum 40 2`, i.e. a total
of `0.40` — and not the missing-latent violation for `B`, although a
declared latent is missing. -/
theorem c5_counterexample_order :
    validate_vpgm_instance_against_template instAM tmplAB = .error (.badSum 40 2) ∧
    tmplLatents tmplAB = .ok (.jobj [("A", .jnull), ("B", .jnull)]) ∧
    pyIndex instAM (.jstr "latent_posteriors") = .ok (.jobj [("A", .jobj
      [("state_probabilities", .jobj [("x", .jnum 2 1), ("y", .jnum 2 1)]),
       ("justification", .jstr "r")])]) ∧
    pyContains (.jobj [("A", .jobj
      [("state_probabilities", .jobj [("x", .jnum 2 1), ("y", .jnum 2 1)]),
       ("justification", .jstr "r")])]) (.jstr "B") = .ok false ∧
    (∀ n, VErr.badSum 40 2 ≠ .missingLatent n) := by
  refine ⟨rfl, rfl, rfl, rfl, ?_⟩
  intro n h
  exact VErr.noConfusion h

/-- C5 (amended): the validator runs its blocks in the fixed order
top-level keys, template id, latent loop, answer posterior, selected
answer, short-circuiting at the first failing block; within the latent
loop, each declared latent's presence, sub-field and distribution checks
complete before the next declared latent is examined (so the earliest
violation in template declaration order is reported, not necessarily a
missing-latent violation).  When the first declared latent is missing,
the missing-latent violation is reported no matter what follows. -/
theorem c5_validate_check_order :
    (∀ (inst : JVal) (tmpl : List (String × JVal)) e, checkTopLevelKeys inst = .error e →
      validate_vpgm_instance_against_template inst tmpl = .error e) ∧
    (∀ (inst : JVal) (tmpl : List (String × JVal)) e, checkTopLevelKeys inst = .ok () →
      checkTemplateId inst tmpl = .error e →
      validate_vpgm_instance_against_template inst tmpl = .error e) ∧
    (∀ (inst : JVal) (tmpl : List (String × JVal)) e, checkTopLevelKeys inst = .ok () →
      checkTemplateId inst tmpl = .ok () → checkLatents inst tmpl = .error e →
      validate_vpgm_instance_against_template inst tmpl = .error e) ∧
    (∀ (inst : JVal) (tmpl : List (String × JVal)) e, checkTopLevelKeys inst = .ok () →
      checkTemplateId inst tmpl = .ok () → checkLatents inst tmpl = .ok () →
      checkAnswerPosterior inst = .error e →
      validate_vpgm_instance_against_template inst tmpl = .error e) ∧
    (∀ (inst : JVal) (tmpl : List (String × JVal)), checkTopLevelKeys inst = .ok () →
      checkTemplateId inst tmpl = .ok () → checkLatents inst tmpl = .ok () →
      checkAnswerPosterior inst = .ok () →
      validate_vpgm_instance_against_template inst tmpl = checkSelectedAnswer inst) ∧
    (∀ (instL n : JVal) (rest : List JVal), latentLoop instL (n :: rest) =
      match latentBody instL n with
      | .error e => .error e
      | .ok _ => latentLoop instL rest) ∧
    (∀ (inst : JVal) (tmpl : List (String × JVal)) (tl instL n : JVal) (rest : List JVal),
      checkTopLevelKeys inst = .ok () → checkTemplateId inst tmpl = .ok () →
      tmplLatents tmpl = .ok tl → pyIndex inst (.jstr "latent_posteriors") = .ok instL →
      latentIter tl = .ok (n :: rest) → pyContains instL n = .ok false →
      validate_vpgm_instance_against_template inst tmpl = .error (.missingLatent n)) := by
  refine ⟨?_, ?_, ?_, ?_, ?_, ?_, ?_⟩
  · intro inst tmpl e h1
    unfold validate_vpgm_instance_against_template
    rw [h1]
  · intro inst tmpl e h1 h2
    exact validate_stage2_of_ok1 inst tmpl h1 e h2
  · intro inst tmpl e h1 h2 h3
    unfold validate_vpgm_instance_against_template
    rw [h1, h2, h3]
  · intro inst tmpl e h1 h2 h3 h4
    unfold validate_vpgm_instance_against_template
    rw [h1, h2, h3, h4]
  · intro inst tmpl h1 h2 h3 h4
    exact validate_eq_of_ok4 inst tmpl h1 h2 h3 h4
  · intro instL n rest
    rfl
  · intro inst tmpl tl instL n rest h1 h2 htl hidx hiter hmiss
    have h3 : checkLatents inst tmpl = .error (.missingLatent n) := by
      simp only [checkLatents, htl, hidx, hiter, latentLoop, latentBody, hmiss]
    unfold validate_vpgm_instance_against_template
    rw [h1, h2, h3]

/-- Witness for C5 (amended): with the missing latent `B` declared first,
the validator reports the missing-latent violation even though the later
declared latent `A` has an invalid distribution. -/
theorem c5_validate_check_order_witness :
    validate_vpgm_instance_against_template instAM tmplBA =
      .error (.missingLatent (.jstr "B")) :=
  c5_validate_check_order.2.2.2.2.2.2 instAM tmplBA
    (.jobj [("B", .jnull), ("A", .jnull)])
    (.jobj [("A", .jobj
      [("state_probabilities", .jobj [("x", .jnum 2 1), ("y", .jnum 2 1)]),
       ("justification", .jstr "r")])])
    (.jstr "B") [.jstr "A"] rfl rfl rfl rfl rfl rfl

/-- C6: once the four earlier validator blocks succeed, the outcome of
validation is exactly the membership rule: when `observed.options` is a
non-empty list, validation succeeds precisely when `selected_answer` is
a member under Python `==`, and fails with the membership violation
otherwise; when `observed.options` is not a list, or is an empty list,
the membership check is skipped and validation succeeds. -/
theorem c6_selected_answer_membership :
    ∀ (inst : JVal) (tmpl : List (String × JVal)) (ap obsv opts sel : JVal),
    checkTopLevelKeys inst = .ok () → checkTemplateId inst tmpl = .ok () →
    checkLatents inst tmpl = .ok () → checkAnswerPosterior inst = .ok () →
    pyIndex inst (.jstr "answer_posterior") = .ok ap →
    pyGetD inst "observed" (.jobj []) = .ok obsv →
    pyGetD obsv "options" .jnull = .ok opts →
    pyIndex ap (.jstr "selected_answer") = .ok sel →
    ((∀ xs, opts = .jarr xs → xs ≠ [] →
        validate_vpgm_instance_against_template inst tmpl =
          (if xs.any (pyEq sel) then .ok () else .error (.selectedNotInOptions sel))) ∧
     (opts.isArr = false → validate_vpgm_instance_against_template inst tmpl = .ok ()) ∧
     (opts = .jarr [] → validate_vpgm_instance_against_template inst tmpl = .ok ())) := by
  intro inst tmpl ap obsv opts sel h1 h2 h3 h4 hap hobs hopt hsel
  have hv : validate_vpgm_instance_against_template inst tmpl = checkSelectedAnswer inst :=
    validate_eq_of_ok4 inst tmpl h1 h2 h3 h4
  refine ⟨?_, ?_, ?_⟩
  · intro xs hxs hne
    subst hxs
    rw [hv]
    simp only [checkSelectedAnswer, hap, hobs, hopt, hsel]
    simp [List.isEmpty_iff, hne]
  · intro hnotarr
    rw [hv]
    simp only [checkSelectedAnswer, hap, hobs, hopt, hsel]
    match opts, hnotarr with
    | .jnull, _ => rfl
    | .jbool b, _ => rfl
    | .jnum m e, _ => rfl
    | .jstr s, _ => rfl
    | .jobj fs, _ => rfl
  · intro hxs
    subst hxs
    rw [hv]
    simp only [checkSelectedAnswer, hap, hobs, hopt, hsel]
    rfl

/-- An otherwise-valid instance whose `observed.options` is
`["Dog", "Cat"]` but whose `selected_answer` is `"Fish"`. -/
def instFish : JVal :=
  .jobj [("template_id", .jstr "T"), ("question_meta", .jnull),
    ("observed", .jobj [("options", .jarr [.jstr "Dog", .jstr "Cat"])]),
    ("latent_posteriors", .jnull),
    ("answer_posterior", .jobj
      [("option_probabilities", .jobj [("Dog", .jnum 1 0)]), ("selected_answer", .jstr "Fish")])]

/-- Witness for C6: with options `["Dog", "Cat"]` and selected answer
`"Fish"`, validation fails with the membership violation. -/
theorem c6_selected_answer_membership_witness :
    validate_vpgm_instance_against_template instFish [("id", .jstr "T")] =
      .error (.selectedNotInOptions (.jstr "Fish")) := by
  have h := (c6_selected_answer_membership instFish [("id", .jstr "T")]
    (.jobj [("option_probabilities", .jobj [("Dog", .jnum 1 0)]),
            ("selected_answer", .jstr "Fish")])
    (.jobj [("options", .jarr [.jstr "Dog", .jstr "Cat"])])
    (.jarr [.jstr "Dog", .jstr "Cat"]) (.jstr "Fish")
    rfl rfl rfl rfl rfl rfl rfl rfl).1 [.jstr "Dog", .jstr "Cat"] rfl (by simp)
  simpa using h

/-- Template whose own `id` is the falsy (but present) empty string, and
whose `instance_fields.template_id` is `"T"`. -/
def tmplFalsyId : List (String × JVal) :=
  [("id", .jstr ""), ("instance_fields", .jobj [("template_id", .jstr "T")])]

/-- A minimal valid instance with `template_id` `"T"`. -/
def instT : JVal :=
  .jobj [("template_id", .jstr "T"), ("question_meta", .jnull), ("observed", .jobj []),
    ("latent_posteriors", .jnull),
    ("answer_posterior", .jobj
      [("option_probabilities", .jobj [("A", .jnum 1 0)]), ("selected_answer", .jnull)])]

/-- Counterexample to C8 as stated: the template's own `id` field is
present (the empty string) and differs from the instance's `template_id`
`"T"`, yet validation succeeds, because the code falls back to
`instance_fields.template_id` for any falsy id, not only an absent one. -/
theorem c8_counterexample_falsy_id :
    validate_vpgm_instance_against_template instT tmplFalsyId = .ok () ∧
    List.lookup "id" tmplFalsyId = some (.jstr "") ∧
    pyIndex instT (.jstr "template_id") = .ok (.jstr "T") ∧
    pyEq (.jstr "T") (.jstr "") = false := ⟨rfl, rfl, rfl, by simp [pyEq]⟩

/-- C8 (amended): the expected id is the template's own `id` whenever
that value is truthy; when it is falsy (absent, null, empty, zero, ...)
and `instance_fields` is absent it remains that falsy id; when it is
falsy and `instance_fields` is present the expected id is
`instance_fields.template_id`.  Validation succeeds only if the
instance's `template_id` equals the expected id under Python `==`, and
fails with the mismatch violation when it does not. -/
theorem c8_template_id_check :
    (∀ tmpl : List (String × JVal), (lookupD tmpl "id" .jnull).truthy = true →
      expectedId tmpl = .ok (lookupD tmpl "id" .jnull)) ∧
    (∀ tmpl : List (String × JVal), (tmpl.lookup "instance_fields").isSome = false →
      expectedId tmpl = .ok (lookupD tmpl "id" .jnull)) ∧
    (∀ (tmpl : List (String × JVal)) (g : List (String × JVal)),
      (lookupD tmpl "id" .jnull).truthy = false →
      (tmpl.lookup "instance_fields").isSome = true →
      lookupD tmpl "instance_fields" .jnull = .jobj g →
      expectedId tmpl = .ok (lookupD g "template_id" .jnull)) ∧
    (∀ (inst : JVal) (tmpl : List (String × JVal)) (e instTid : JVal),
      expectedId tmpl = .ok e → pyIndex inst (.jstr "template_id") = .ok instTid →
      ((validate_vpgm_instance_against_template inst tmpl = .ok () → pyEq instTid e = true) ∧
       (checkTopLevelKeys inst = .ok () → pyEq instTid e = false →
         validate_vpgm_instance_against_template inst tmpl =
           .error (.templateIdMismatch e instTid)))) := by
  refine ⟨?_, ?_, ?_, ?_⟩
  · intro tmpl h
    simp [expectedId, h]
  · intro tmpl h
    simp [expectedId, h]
  · intro tmpl g hfalsy hsome hobj
    simp [expectedId, hfalsy, hsome, hobj]
  · intro inst tmpl e instTid hexp hidx
    constructor
    · intro hok
      obtain ⟨-, h2, -, -, -⟩ := validate_ok_stages inst tmpl hok
      simp only [checkTemplateId, hexp, hidx] at h2
      by_contra hne
      rw [Bool.not_eq_true] at hne
      rw [if_neg (by simp [hne])] at h2
      exact Except.noConfusion h2
    · intro h1 hne
      have h2 : checkTemplateId inst tmpl = .error (.templateIdMismatch e instTid) := by
        simp only [checkTemplateId, hexp, hidx]
        rw [if_neg (by simp [hne])]
      exact validate_stage2_of_ok1 inst tmpl h1 _ h2

theorem firstIdxAux_eq_none_iff (c : Char) (cs : List Char) :
    firstIdxAux c cs = none ↔ c ∉ cs := by
  induction cs with
  | nil => simp [firstIdxAux]
  | cons a as ih =>
    by_cases h : a = c
    · simp [firstIdxAux, h]
    · simp [firstIdxAux, h, ih, Ne.symm h]

theorem firstIdx_eq_none_iff (cs : List Char) (c : Char) :
    firstIdx cs c = none ↔ c ∉ cs :=
  firstIdxAux_eq_none_iff c cs

theorem lastIdx_eq_none_iff (cs : List Char) (c : Char) :
    lastIdx cs c = none ↔ c ∉ cs := by
  unfold lastIdx
  cases h : firstIdxAux c cs.reverse with
  | none =>
    rw [firstIdxAux_eq_none_iff] at h
    simp at h
    simp [h]
  | some i =>
    have : c ∈ cs := by
      by_contra hc
      rw [← List.mem_reverse, ← firstIdxAux_eq_none_iff] at hc
      rw [hc] at h
      exact Option.noConfusion h
    simp [this]

/-- C2: the control flow of `extract_json_from_text`.  (a) If the whole
text parses as JSON it is returned unchanged.  (b) Otherwise, if no `{`
or no `}` occurs, or the first `{` comes after the last `}`, it fails
immediately with the no-JSON extraction error.  (c) Otherwise the
substring from the first `{` to the last `}` is the candidate: it is
returned if it parses, and the invalid-JSON extraction error is raised
if it does not.  In particular `extract_json_from_text "no json here"`
fails with the extraction error. -/
theorem c2_extract_json_from_text :
    (∀ raw : String,
      ((loads raw).isSome = true → extract_json_from_text raw = .ok raw) ∧
      ((loads raw).isSome = false → ('{' ∉ raw.data ∨ '}' ∉ raw.data) →
        extract_json_from_text raw = .error .noJsonFound) ∧
      (∀ s e : Nat, (loads raw).isSome = false → firstIdx raw.data '{' = some s →
        lastIdx raw.data '}' = some e → e < s →
        extract_json_from_text raw = .error .noJsonFound) ∧
      (∀ s e : Nat, (loads raw).isSome = false → firstIdx raw.data '{' = some s →
        lastIdx raw.data '}' = some e → s ≤ e →
        extract_json_from_text raw =
          (if (loads (strSlice raw s e)).isSome then .ok (strSlice raw s e)
           else .error .invalidJson))) ∧
    extract_json_from_text "no json here" = .error .noJsonFound := by
  constructor
  · intro raw
    refine ⟨?_, ?_, ?_, ?_⟩
    · intro h
      simp [extract_json_from_text, h]
    · intro h hmem
      rcases hmem with hm | hm
      · rw [← firstIdx_eq_none_iff] at hm
        simp [extract_json_from_text, h, hm]
      · rw [← lastIdx_eq_none_iff] at hm
        simp only [extract_json_from_text, h, Bool.false_eq_true, if_false, hm]
        cases firstIdx raw.data '{' <;> rfl
    · intro s e h hf hl hlt
      simp only [extract_json_from_text, h, Bool.false_eq_true, if_false, hf, hl]
      rw [if_pos (by omega)]
    · intro s e h hf hl hle
      simp only [extract_json_from_text, h, Bool.false_eq_true, if_false, hf, hl]
      rw [if_neg (by omega)]
  · rfl

/-- Witness for C2: prose-wrapped JSON exercises the candidate branch —
the first `{` is at index 5, the last `}` at index 12, and the enclosed
candidate parses. -/
theorem c2_extract_json_from_text_witness :
    extract_json_from_text "text \x7b\"a\": 1\x7d tail" = .ok "\x7b\"a\": 1\x7d" := by
  have h := (c2_extract_json_from_text.1 "text \x7b\"a\": 1\x7d tail").2.2.2 5 12
    rfl rfl rfl (by omega)
  rw [h]
  rfl

theorem attemptOnce_ok_validated (tmpl : List (String × JVal))
    (reply : Except VErr String) (inst : JVal) (h : attemptOnce tmpl reply = .ok inst) :
    validate_vpgm_instance_against_template inst tmpl = .ok () := by
  unfold attemptOnce at h
  split at h
  · exact Except.noConfusion h
  · split at h
    · exact Except.noConfusion h
    · split at h
      · exact Except.noConfusion h
      · rename_i raw hraw inst' hinst' u hu
        cases u
        cases h
        exact hu

theorem retryFrom_succ (tmpl : List (String × JVal)) (prompt : String)
    (oracle : Nat → String → Except VErr String) (k m : Nat) (last : Option VErr) :
    retryFrom tmpl prompt oracle k (m + 1) last =
      (match attemptOnce tmpl (oracle k prompt) with
       | .ok inst => (.ok inst, 1)
       | .error e =>
         ((retryFrom tmpl prompt oracle (k + 1) m (some e)).1,
          (retryFrom tmpl prompt oracle (k + 1) m (some e)).2 + 1)) := rfl

theorem retryFrom_first_success (tmpl : List (String × JVal)) (prompt : String)
    (oracle : Nat → String → Except VErr String) :
    ∀ (i n k : Nat) (last : Option VErr) (inst : JVal), i < n →
    (∀ j, j < i → ∃ e, attemptOnce tmpl (oracle (k + j) prompt) = .error e) →
    attemptOnce tmpl (oracle (k + i) prompt) = .ok inst →
    retryFrom tmpl prompt oracle k n last = (.ok inst, i + 1) := by
  intro i
  induction i with
  | zero =>
    intro n k last inst hlt hall hok
    match n, hlt with
    | m + 1, _ =>
      rw [show k + 0 = k from rfl] at hok
      rw [retryFrom_succ, hok]
  | succ i ih =>
    intro n k last inst hlt hall hok
    match n, hlt with
    | m + 1, hlt =>
      obtain ⟨e0, he0⟩ := hall 0 (Nat.succ_pos i)
      rw [show k + 0 = k from rfl] at he0
      have hall' : ∀ j, j < i → ∃ e, attemptOnce tmpl (oracle (k + 1 + j) prompt) = .error e := by
        intro j hj
        have := hall (j + 1) (by omega)
        rwa [show k + (j + 1) = k + 1 + j by omega] at this
      have hok' : attemptOnce tmpl (oracle (k + 1 + i) prompt) = .ok inst := by
        rwa [show k + (i + 1) = k + 1 + i by omega] at hok
      have hm : i < m := by omega
      have hstep : retryFrom tmpl prompt oracle k (m + 1) last =
          ((retryFrom tmpl prompt oracle (k + 1) m (some e0)).1,
           (retryFrom tmpl prompt oracle (k + 1) m (some e0)).2 + 1) := by
        rw [retryFrom_succ, he0]
      rw [hstep, ih m (k + 1) (some e0) inst hm hall' hok']

theorem retryFrom_all_fail (tmpl : List (String × JVal)) (prompt : String)
    (oracle : Nat → String → Except VErr String) :
    ∀ (n k : Nat) (last : Option VErr), 1 ≤ n →
    (∀ j, j < n → ∃ e, attemptOnce tmpl (oracle (k + j) prompt) = .error e) →
    ∃ e, attemptOnce tmpl (oracle (k + (n - 1)) prompt) = .error e ∧
      retryFrom tmpl prompt oracle k n last = (.error (.exhaustedRetries (some e)), n) := by
  intro n
  induction n with
  | zero => intro k last h; omega
  | succ m ih =>
    intro k last _ hall
    match m, hall with
    | 0, hall =>
      obtain ⟨e0, he0⟩ := hall 0 (by omega)
      rw [show k + 0 = k from rfl] at he0
      refine ⟨e0, by simpa using he0, ?_⟩
      rw [retryFrom_succ, he0]
      rfl
    | m' + 1, hall =>
      obtain ⟨e0, he0⟩ := hall 0 (by omega)
      rw [show k + 0 = k from rfl] at he0
      have hall' : ∀ j, j < m' + 1 → ∃ e, attemptOnce tmpl (oracle (k + 1 + j) prompt) = .error e := by
        intro j hj
        have := hall (j + 1) (by omega)
        rwa [show k + (j + 1) = k + 1 + j by omega] at this
      obtain ⟨e, he, hr⟩ := ih (k + 1) (some e0) (by omega) hall'
      refine ⟨e, ?_, ?_⟩
      · rwa [show k + (m' + 1 + 1 - 1) = k + 1 + (m' + 1 - 1) by omega]
      · have hstep : retryFrom tmpl prompt oracle k (m' + 1 + 1) last =
            ((retryFrom tmpl prompt oracle (k + 1) (m' + 1) (some e0)).1,
             (retryFrom tmpl prompt oracle (k + 1) (m' + 1) (some e0)).2 + 1) := by
          rw [retryFrom_succ, he0]
        rw [hstep, hr]

theorem retryFrom_ok_validated (tmpl : List (String × JVal)) (prompt : String)
    (oracle : Nat → String → Except VErr String) :
    ∀ (n k : Nat) (last : Option VErr) (inst : JVal) (c : Nat),
    retryFrom tmpl prompt oracle k n last = (.ok inst, c) →
    validate_vpgm_instance_against_template inst tmpl = .ok () := by
  intro n
  induction n with
  | zero =>
    intro k last inst c h
    have h1 := congrArg Prod.fst h
    simp [retryFrom] at h1
  | succ m ih =>
    intro k last inst c h
    cases ha : attemptOnce tmpl (oracle k prompt) with
    | ok inst' =>
      rw [retryFrom_succ, ha] at h
      have h1 : inst' = inst := by
        have := congrArg Prod.fst h
        simpa using this
      exact h1 ▸ attemptOnce_ok_validated tmpl _ inst' ha
    | error e =>
      rw [retryFrom_succ, ha] at h
      have h1 : (retryFrom tmpl prompt oracle (k + 1) m (some e)).1 = .ok inst := by
        simpa using congrArg Prod.fst h
      exact ih (k + 1) (some e) inst (retryFrom tmpl prompt oracle (k + 1) m (some e)).2
        (by rw [Prod.ext_iff]; exact ⟨h1, rfl⟩)

/-- C3: the retry protocol of `infer_vpgm_for_skeleton`.  With the
template resolved, (a) if attempts `0 .. k-1` all fail and attempt `k`
succeeds with a parsed-and-validated instance, the run returns that
instance unchanged after exactly `k + 1` oracle calls (one call when the
first attempt succeeds); (b) if all `max_retries ≥ 1` attempts fail, the
run makes exactly `max_retries` oracle calls and fails with
`ExhaustedRetriesError` wrapping the last attempt's error; (c) any
returned instance passed full validation — no partially validated
instance is returned. -/
theorem c3_infer_retry_protocol :
    ∀ (sk tf : List (String × JVal)) (tid : String) (n : Nat)
      (oracle : Nat → String → Except VErr String) (tmpl : List (String × JVal)),
    get_template_by_id tf tid = .ok (.jobj tmpl) →
    ((∀ (k : Nat) (inst : JVal), k < n →
        (∀ j, j < k → ∃ e, attemptOnce tmpl (oracle j (build_vpgm_prompt sk tmpl)) = .error e) →
        attemptOnce tmpl (oracle k (build_vpgm_prompt sk tmpl)) = .ok inst →
        infer_vpgm_for_skeleton sk tf tid n oracle = (.ok inst, k + 1)) ∧
     (1 ≤ n →
        (∀ j, j < n → ∃ e, attemptOnce tmpl (oracle j (build_vpgm_prompt sk tmpl)) = .error e) →
        ∃ e, attemptOnce tmpl (oracle (n - 1) (build_vpgm_prompt sk tmpl)) = .error e ∧
          infer_vpgm_for_skeleton sk tf tid n oracle =
            (.error (.exhaustedRetries (some e)), n)) ∧
     (∀ (inst : JVal) (c : Nat), infer_vpgm_for_skeleton sk tf tid n oracle = (.ok inst, c) →
        validate_vpgm_instance_against_template inst tmpl = .ok ())) := by
  intro sk tf tid n oracle tmpl hres
  have hinf : infer_vpgm_for_skeleton sk tf tid n oracle =
      retryFrom tmpl (build_vpgm_prompt sk tmpl) oracle 0 n none := by
    unfold infer_vpgm_for_skeleton
    rw [hres]
  refine ⟨?_, ?_, ?_⟩
  · intro k inst hk hall hok
    rw [hinf]
    exact retryFrom_first_success tmpl _ oracle k n 0 none inst hk
      (by intro j hj; simpa using hall j hj) (by simpa using hok)
  · intro hn hall
    obtain ⟨e, he, hr⟩ := retryFrom_all_fail tmpl (build_vpgm_prompt sk tmpl) oracle n 0 none hn
      (by intro j hj; simpa using hall j hj)
    exact ⟨e, by simpa using he, by rw [hinf]; exact hr⟩
  · intro inst c h
    rw [hinf] at h
    exact retryFrom_ok_validated tmpl _ oracle n 0 none inst c h

/-- A template document with the single template `"T"`. -/
def docT : List (String × JVal) := [("templates", .jarr [.jobj [("id", .jstr "T")]])]

/-- The serialized form of `instT`, as an oracle would emit it. -/
def instTStr : String :=
  "\x7b\"template_id\": \"T\", \"question_meta\": null, \"observed\": \x7b\x7d, \"latent_posteriors\": null, \"answer_posterior\": \x7b\"option_probabilities\": \x7b\"A\": 1\x7d, \"selected_answer\": null\x7d\x7d"

/-- Witness for C3: the oracle fails on its first call and returns a
valid instance on its second, so the run returns that instance after
exactly two oracle calls. -/
theorem c3_infer_retry_protocol_witness :
    infer_vpgm_for_skeleton [] docT "T" 3
      (fun k _ => if k = 0 then .error (.oracleFailure "down") else .ok instTStr) =
    (.ok instT, 2) := by
  have h := (c3_infer_retry_protocol [] docT "T" 3
    (fun k _ => if k = 0 then .error (.oracleFailure "down") else .ok instTStr)
    [("id", .jstr "T")] rfl).1 1 instT (by omega)
    (by
      intro j hj
      have hj0 : j = 0 := by omega
      subst hj0
      exact ⟨.oracleFailure "down", rfl⟩)
    rfl
  exact h

/-- The predicate a template entry must satisfy to be returned: it is a
dict whose `id` value equals the requested id under Python `==` — for
string ids, exact case-sensitive string equality. -/
def idMatches (tid : String) : JVal → Bool
  | .jobj fs => pyEq (lookupD fs "id" .jnull) (.jstr tid)
  | _ => false

theorem findTemplate_eq_find? (tid : String) :
    ∀ xs : List JVal, (∀ t ∈ xs, t.isObj = true) →
    findTemplate tid xs =
      (match xs.find? (idMatches tid) with
       | some t => .ok t
       | none => .error (.templateNotFound tid)) := by
  intro xs
  induction xs with
  | nil => intro _; rfl
  | cons t rest ih =>
    intro hobj
    have ht : t.isObj = true := hobj t (by simp)
    match t, ht with
    | .jobj fs, _ =>
      by_cases hm : pyEq (lookupD fs "id" .jnull) (.jstr tid) = true
      · simp [findTemplate, List.find?, idMatches, hm]
      · rw [Bool.not_eq_true] at hm
        have ih' := ih fun t htm => hobj t (by simp [htm])
        simp [findTemplate, List.find?, idMatches, hm, ih']

/-- C9: `get_template_by_id` is a linear search over the document's
template list returning the first entry whose `id` equals the requested
id under Python `==` (for strings: exact, case-sensitive equality), and
fails with the not-found error when no entry matches; and whenever
resolution fails, `infer_vpgm_for_skeleton` propagates that failure with
zero oracle calls — the oracle is never invoked. -/
theorem c9_get_template_by_id :
    (∀ (doc : List (String × JVal)) (tid : String) (xs : List JVal),
      lookupD doc "templates" (.jarr []) = .jarr xs → (∀ t ∈ xs, t.isObj = true) →
      get_template_by_id doc tid =
        (match xs.find? (idMatches tid) with
         | some t => .ok t
         | none => .error (.templateNotFound tid))) ∧
    (∀ (sk doc : List (String × JVal)) (tid : String) (n : Nat)
       (oracle : Nat → String → Except VErr String) (e : VErr),
      get_template_by_id doc tid = .error e →
      infer_vpgm_for_skeleton sk doc tid n oracle = (.error e, 0)) := by
  constructor
  · intro doc tid xs hdoc hobj
    unfold get_template_by_id
    rw [hdoc]
    exact findTemplate_eq_find? tid xs hobj
  · intro sk doc tid n oracle e h
    unfold infer_vpgm_for_skeleton
    rw [h]

/-- Witness for C9: a document with two entries bearing id `"T"` resolves
to the first of them; resolving the unknown id `"U"` makes the whole
inference fail with the not-found error and zero oracle calls. -/
theorem c9_get_template_by_id_witness :
    get_template_by_id
        [("templates", .jarr [.jobj [("id", .jstr "T"), ("n", .jnum 1 0)],
                              .jobj [("id", .jstr "T"), ("n", .jnum 2 0)]])] "T" =
      .ok (.jobj [("id", .jstr "T"), ("n", .jnum 1 0)]) ∧
    infer_vpgm_for_skeleton []
        [("templates", .jarr [.jobj [("id", .jstr "T"), ("n", .jnum 1 0)],
                              .jobj [("id", .jstr "T"), ("n", .jnum 2 0)]])] "U" 3
        (fun _ _ => .ok "") =
      (.error (.templateNotFound "U"), 0) := by
  constructor
  · have h := c9_get_template_by_id.1
      [("templates", .jarr [.jobj [("id", .jstr "T"), ("n", .jnum 1 0)],
                            .jobj [("id", .jstr "T"), ("n", .jnum 2 0)]])] "T"
      [.jobj [("id", .jstr "T"), ("n", .jnum 1 0)], .jobj [("id", .jstr "T"), ("n", .jnum 2 0)]]
      rfl (by decide)
    simpa using h
  · exact c9_get_template_by_id.2 _ _ "U" 3 (fun _ _ => .ok "") (.templateNotFound "U") rfl

/-- Replace the value stored under a key of an association list, keeping
every other entry (identity when the key is absent). -/
def setField (o : List (String × JVal)) (key : String) (w : JVal) :
    List (String × JVal) :=
  o.map fun kv => if kv.1 = key then (kv.1, w) else kv

theorem keys_setField (o : List (String × JVal)) (key : String) (w : JVal) :
    (setField o key w).map Prod.fst = o.map Prod.fst := by
  induction o with
  | nil => rfl
  | cons kv rest ih =>
    by_cases h : kv.1 = key <;> simp [setField, h] <;>
      simpa [setField] using ih

theorem lookup_cons_key (k k' : String) (v : JVal) (l : List (String × JVal)) :
    List.lookup k' ((k, v) :: l) = (if k' = k then some v else List.lookup k' l) := by
  by_cases h : k' = k
  · simp [List.lookup, h]
  · have hb : (k' == k) = false := beq_eq_false_iff_ne.mpr h
    simp [List.lookup, hb, h]

theorem setField_cons (k1 : String) (v1 : JVal) (rest : List (String × JVal))
    (key : String) (w : JVal) :
    setField ((k1, v1) :: rest) key w =
      (if k1 = key then (k1, w) else (k1, v1)) :: setField rest key w := by
  simp only [setField, List.map_cons]

theorem lookup_setField_ne (o : List (String × JVal)) (key key' : String) (w : JVal)
    (h : key' ≠ key) : List.lookup key' (setField o key w) = List.lookup key' o := by
  induction o with
  | nil => rfl
  | cons kv rest ih =>
    obtain ⟨k1, v1⟩ := kv
    rw [setField_cons]
    by_cases hk : k1 = key
    · rw [if_pos hk, lookup_cons_key, lookup_cons_key,
        if_neg (hk ▸ h), if_neg (hk ▸ h)]
      exact ih
    · rw [if_neg hk, lookup_cons_key, lookup_cons_key]
      by_cases h2 : key' = k1
      · rw [if_pos h2, if_pos h2]
      · rw [if_neg h2, if_neg h2]
        exact ih

theorem lookup_setField_eq (o : List (String × JVal)) (key : String) (w : JVal) :
    List.lookup key (setField o key w) =
      (List.lookup key o).map fun _ => w := by
  induction o with
  | nil => rfl
  | cons kv rest ih =>
    obtain ⟨k1, v1⟩ := kv
    rw [setField_cons]
    by_cases hk : k1 = key
    · rw [if_pos hk, lookup_cons_key, lookup_cons_key,
        if_pos hk.symm, if_pos hk.symm]
      rfl
    · rw [if_neg hk, lookup_cons_key, lookup_cons_key,
        if_neg (fun hc => hk hc.symm), if_neg (fun hc => hk hc.symm)]
      exact ih

theorem pyContains_jobj_keys (a b : List (String × JVal)) (it : JVal)
    (h : a.map Prod.fst = b.map Prod.fst) :
    pyContains (.jobj a) it = pyContains (.jobj b) it := by
  have hany : ∀ p : String → Bool,
      (a.any fun kv => p kv.1) = (b.any fun kv => p kv.1) := by
    intro p
    have hgen : ∀ l : List (String × JVal),
        (l.any fun kv => p kv.1) = (l.map Prod.fst).any p := by
      intro l
      induction l with
      | nil => rfl
      | cons x xs ih => simp [ih]
    rw [hgen a, hgen b, h]
  match it with
  | .jnull =>
    simp only [pyContains]
    exact congrArg Except.ok (hany fun k1 => pyEq .jnull (.jstr k1))
  | .jbool x =>
    simp only [pyContains]
    exact congrArg Except.ok (hany fun k1 => pyEq (.jbool x) (.jstr k1))
  | .jnum m e =>
    simp only [pyContains]
    exact congrArg Except.ok (hany fun k1 => pyEq (.jnum m e) (.jstr k1))
  | .jstr s =>
    simp only [pyContains]
    exact congrArg Except.ok (hany fun k1 => pyEq (.jstr s) (.jstr k1))
  | .jarr xs => rfl
  | .jobj fs => rfl

theorem checkKeysLoop_keys (a b : List (String × JVal))
    (h : a.map Prod.fst = b.map Prod.fst) :
    ∀ ks : List String, checkKeysLoop (.jobj a) ks = checkKeysLoop (.jobj b) ks := by
  intro ks
  induction ks with
  | nil => rfl
  | cons k rest ih =>
    unfold checkKeysLoop
    rw [pyContains_jobj_keys a b _ h, ih]

theorem latentBody_append (fs : List (String × JVal)) (k : String) (v : JVal)
    (n : JVal) (hn : pyEq n (.jstr k) = false) :
    latentBody (.jobj fs) n = latentBody (.jobj (fs ++ [(k, v)])) n := by
  have hcont : pyContains (.jobj fs) n = pyContains (.jobj (fs ++ [(k, v)])) n := by
    match n with
    | .jarr _ => rfl
    | .jobj _ => rfl
    | .jnull => simp [pyContains, List.any_append, pyEq]
    | .jbool b => simp [pyContains, List.any_append, pyEq]
    | .jnum m e =>
      simp [pyContains, List.any_append]
      intro h
      rw [h] at hn
      exact absurd hn (by simp)
    | .jstr s =>
      simp [pyContains, List.any_append]
      intro h
      rw [h] at hn
      exact absurd hn (by simp)
  have hidx : pyIndex (.jobj fs) n = pyIndex (.jobj (fs ++ [(k, v)])) n := by
    match n with
    | .jarr _ => rfl
    | .jobj _ => rfl
    | .jnull => rfl
    | .jbool b => rfl
    | .jnum m e => rfl
    | .jstr s =>
      have hs : s ≠ k := by
        simp [pyEq] at hn
        exact hn
      have : List.lookup s (fs ++ [(k, v)]) = List.lookup s fs := by
        rw [List.lookup_append]
        cases hL : List.lookup s fs with
        | some w => rfl
        | none =>
          have hb : (s == k) = false := beq_eq_false_iff_ne.mpr hs
          simp [List.lookup, hb]
      simp [pyIndex, this]
  unfold latentBody
  rw [hcont, hidx]

theorem latentLoop_append (fs : List (String × JVal)) (k : String) (v : JVal)
    (names : List JVal) (hn : ∀ n ∈ names, pyEq n (.jstr k) = false) :
    latentLoop (.jobj fs) names = latentLoop (.jobj (fs ++ [(k, v)])) names := by
  induction names with
  | nil => rfl
  | cons n rest ih =>
    unfold latentLoop
    rw [← latentBody_append fs k v n (hn n (by simp))]
    rw [ih fun m hm => hn m (by simp [hm])]

/-- C10: the validator examines only the latent variables the template
declares.  Adding an entry under an undeclared name to the instance's
`latent_posteriors` — with an arbitrary, possibly ill-formed value —
does not change the validation outcome; equivalently, such entries may
be absent or ill-formed without causing a `ValidationError`. -/
theorem c10_undeclared_latents_ignored :
    ∀ (inst tmpl fs : List (String × JVal)) (k : String) (v : JVal),
    (∀ tl names, tmplLatents tmpl = .ok tl → latentIter tl = .ok names →
      ∀ n ∈ names, pyEq n (.jstr k) = false) →
    validate_vpgm_instance_against_template
        (.jobj (setField inst "latent_posteriors" (.jobj fs))) tmpl =
      validate_vpgm_instance_against_template
        (.jobj (setField inst "latent_posteriors" (.jobj (fs ++ [(k, v)])))) tmpl := by
  intro inst tmpl fs k v hund
  set oA := setField inst "latent_posteriors" (.jobj fs) with hA
  set oB := setField inst "latent_posteriors" (.jobj (fs ++ [(k, v)])) with hB
  have hkeys : oA.map Prod.fst = oB.map Prod.fst := by
    rw [hA, hB, keys_setField, keys_setField]
  have e1 : checkTopLevelKeys (.jobj oA) = checkTopLevelKeys (.jobj oB) :=
    checkKeysLoop_keys oA oB hkeys _
  have elook : ∀ key' : String, key' ≠ "latent_posteriors" →
      List.lookup key' oA = List.lookup key' oB := by
    intro key' hk
    rw [hA, hB, lookup_setField_ne _ _ _ _ hk, lookup_setField_ne _ _ _ _ hk]
  have e2 : checkTemplateId (.jobj oA) tmpl = checkTemplateId (.jobj oB) tmpl := by
    unfold checkTemplateId
    have : pyIndex (.jobj oA) (.jstr "template_id") =
        pyIndex (.jobj oB) (.jstr "template_id") := by
      simp [pyIndex, elook "template_id" (by decide)]
    rw [this]
  have e3 : checkLatents (.jobj oA) tmpl = checkLatents (.jobj oB) tmpl := by
    unfold checkLatents
    cases htl : tmplLatents tmpl with
    | error e => rfl
    | ok tl =>
      have hlat : pyIndex (.jobj oA) (.jstr "latent_posteriors") =
          (List.lookup "latent_posteriors" inst).elim (.error (.keyError (.jstr "latent_posteriors")))
            (fun _ => .ok (.jobj fs)) := by
        simp [pyIndex, hA, lookup_setField_eq]
        cases List.lookup "latent_posteriors" inst <;> rfl
      have hlatB : pyIndex (.jobj oB) (.jstr "latent_posteriors") =
          (List.lookup "latent_posteriors" inst).elim (.error (.keyError (.jstr "latent_posteriors")))
            (fun _ => .ok (.jobj (fs ++ [(k, v)]))) := by
        simp [pyIndex, hB, lookup_setField_eq]
        cases List.lookup "latent_posteriors" inst <;> rfl
      rw [hlat, hlatB]
      cases hin : List.lookup "latent_posteriors" inst with
      | none => rfl
      | some w =>
        simp only [Option.elim]
        cases hni : latentIter tl with
        | error e => rfl
        | ok names =>
          exact latentLoop_append fs k v names (hund tl names htl hni)
  have e4 : checkAnswerPosterior (.jobj oA) = checkAnswerPosterior (.jobj oB) := by
    unfold checkAnswerPosterior
    have : pyIndex (.jobj oA) (.jstr "answer_posterior") =
        pyIndex (.jobj oB) (.jstr "answer_posterior") := by
      simp [pyIndex, elook "answer_posterior" (by decide)]
    rw [this]
  have e5 : checkSelectedAnswer (.jobj oA) = checkSelectedAnswer (.jobj oB) := by
    unfold checkSelectedAnswer
    have hap : pyIndex (.jobj oA) (.jstr "answer_posterior") =
        pyIndex (.jobj oB) (.jstr "answer_posterior") := by
      simp [pyIndex, elook "answer_posterior" (by decide)]
    have hob : pyGetD (.jobj oA) "observed" (.jobj []) =
        pyGetD (.jobj oB) "observed" (.jobj []) := by
      simp [pyGetD, lookupD, elook "observed" (by decide)]
    rw [hap, hob]
  unfold validate_vpgm_instance_against_template
  rw [e1, e2, e3, e4, e5]

/-- Witness for C10: appending the undeclared, ill-formed entry
`"junk": null` to the latent posteriors of an instance of a template
declaring only `L1` leaves validation succeeding. -/
theorem c10_undeclared_latents_ignored_witness :
    validate_vpgm_instance_against_template
        (.jobj (setField
          [("template_id", .jstr "T"), ("question_meta", .jnull), ("observed", .jobj []),
           ("latent_posteriors", .jnull),
           ("answer_posterior", .jobj
             [("option_probabilities", .jobj [("A", .jnum 1 0)]), ("selected_answer", .jnull)])]
          "latent_posteriors"
          (.jobj [("L1", .jobj [("state_probabilities", .jobj [("x", .jnum 1 0)]),
                                ("justification", .jstr "r")])])))
        [("id", .jstr "T"),
         ("instance_fields", .jobj [("latent_posteriors", .jobj [("L1", .jnull)])])] =
      validate_vpgm_instance_against_template
        (.jobj (setField
          [("template_id", .jstr "T"), ("question_meta", .jnull), ("observed", .jobj []),
           ("latent_posteriors", .jnull),
           ("answer_posterior", .jobj
             [("option_probabilities", .jobj [("A", .jnum 1 0)]), ("selected_answer", .jnull)])]
          "latent_posteriors"
          (.jobj ([("L1", .jobj [("state_probabilities", .jobj [("x", .jnum 1 0)]),
                                 ("justification", .jstr "r")])] ++ [("junk", .jnull)]))))
        [("id", .jstr "T"),
         ("instance_fields", .jobj [("latent_posteriors", .jobj [("L1", .jnull)])])] := by
  apply c10_undeclared_latents_ignored
  intro tl names htl hni n hn
  have htl' : tl = .jobj [("L1", .jnull)] := by
    injection htl with h
    exact h.symm
  subst htl'
  have hni' : names = [.jstr "L1"] := by
    injection hni with h
    exact h.symm
  subst hni'
  simp at hn
  subst hn
  decide

/-- Witness for C8 (amended): a template with truthy id `"T"` and an
instance whose `template_id` is `"U"` fails with the mismatch violation;
the expected id is the template's own id. -/
theorem c8_template_id_check_witness :
    validate_vpgm_instance_against_template
      (.jobj [("template_id", .jstr "U"), ("question_meta", .jnull), ("observed", .jobj []),
        ("latent_posteriors", .jnull),
        ("answer_posterior", .jobj
          [("option_probabilities", .jobj [("A", .jnum 1 0)]), ("selected_answer", .jnull)])])
      [("id", .jstr "T")] =
      .error (.templateIdMismatch (.jstr "T") (.jstr "U")) :=
  ((c8_template_id_check.2.2.2
    (.jobj [("template_id", .jstr "U"), ("question_meta", .jnull), ("observed", .jobj []),
      ("latent_posteriors", .jnull),
      ("answer_posterior", .jobj
        [("option_probabilities", .jobj [("A", .jnum 1 0)]), ("selected_answer", .jnull)])])
    [("id", .jstr "T")] (.jstr "T") (.jstr "U") rfl rfl).2) rfl (by simp [pyEq])

/-! Digit rendering and parsing lemmas, toward the round-trip property of
`dumps` and `loads` (claim C7). -/

theorem pow10_eq (e : Nat) : pow10 e = 10 ^ e := by
  induction e with
  | zero => rfl
  | succ e ih => simp [pow10, ih, pow_succ]; ring

theorem digitChar_toNat (n : Nat) (h : n < 10) : (digitChar n).toNat = 48 + n := by
  interval_cases n <;> rfl

theorem digitChar_isDigit (n : Nat) (h : n < 10) : (digitChar n).isDigit = true := by
  interval_cases n <;> rfl

theorem digitChar_ne_zero (n : Nat) (h1 : 1 ≤ n) (h : n < 10) : digitChar n ≠ '0' := by
  interval_cases n <;> decide

theorem digitsVal_append_one (A : List Char) (c : Char) :
    digitsVal (A ++ [c]) = 10 * digitsVal A + (c.toNat - 48) := by
  unfold digitsVal
  rw [List.foldl_append]
  rfl

theorem digitsAux_small (f n : Nat) (h : n < 10) :
    digitsAux (f + 1) n = [digitChar n] := by
  simp [digitsAux, h]

theorem digitsAux_spec :
    ∀ f n, n < 10 ^ (f + 1) →
      digitsAux (f + 1) n ≠ [] ∧ (∀ c ∈ digitsAux (f + 1) n, c.isDigit = true) ∧
        digitsVal (digitsAux (f + 1) n) = n := by
  intro f
  induction f with
  | zero =>
    intro n h
    have hn : n < 10 := by simpa using h
    rw [digitsAux_small 0 n hn]
    refine ⟨by simp, by simpa using digitChar_isDigit n hn, ?_⟩
    simp [digitsVal, digitChar_toNat n hn]
  | succ f ih =>
    intro n h
    by_cases hn : n < 10
    · rw [digitsAux_small (f + 1) n hn]
      refine ⟨by simp, by simpa using digitChar_isDigit n hn, ?_⟩
      simp [digitsVal, digitChar_toNat n hn]
    · have hq : n / 10 < 10 ^ (f + 1) := by
        rw [Nat.div_lt_iff_lt_mul (by norm_num)]
        calc n < 10 ^ (f + 1 + 1) := h
        _ = 10 ^ (f + 1) * 10 := by ring
      obtain ⟨hne, hdig, hval⟩ := ih (n / 10) hq
      have hstep : digitsAux (f + 1 + 1) n =
          digitsAux (f + 1) (n / 10) ++ [digitChar (n % 10)] := by
        simp [digitsAux, hn]
      refine ⟨by simp [hstep, hne], ?_, ?_⟩
      · intro c hc
        rw [hstep] at hc
        rcases List.mem_append.1 hc with h1 | h1
        · exact hdig c h1
        · simp at h1
          subst h1
          exact digitChar_isDigit _ (Nat.mod_lt n (by norm_num))
      · rw [hstep, digitsVal_append_one, hval,
          digitChar_toNat _ (Nat.mod_lt n (by norm_num))]
        omega

theorem digitsAux_head_ne_zero :
    ∀ f n, 1 ≤ n → n < 10 ^ (f + 1) → ∀ d ds, digitsAux (f + 1) n = d :: ds → d ≠ '0' := by
  intro f
  induction f with
  | zero =>
    intro n h1 h d ds heq
    have hn : n < 10 := by simpa using h
    rw [digitsAux_small 0 n hn] at heq
    injection heq with h2 h3
    rw [← h2]
    exact digitChar_ne_zero n h1 hn
  | succ f ih =>
    intro n h1 h d ds heq
    by_cases hn : n < 10
    · rw [digitsAux_small (f + 1) n hn] at heq
      injection heq with h2 h3
      rw [← h2]
      exact digitChar_ne_zero n h1 hn
    · have hq : n / 10 < 10 ^ (f + 1) := by
        rw [Nat.div_lt_iff_lt_mul (by norm_num)]
        calc n < 10 ^ (f + 1 + 1) := h
        _ = 10 ^ (f + 1) * 10 := by ring
      have hq1 : 1 ≤ n / 10 := by
        rw [Nat.le_div_iff_mul_le (by norm_num)]
        omega
      have hstep : digitsAux (f + 1 + 1) n =
          digitsAux (f + 1) (n / 10) ++ [digitChar (n % 10)] := by
        simp [digitsAux, hn]
      rw [hstep] at heq
      obtain ⟨hne, -, -⟩ := digitsAux_spec f (n / 10) hq
      match hA : digitsAux (f + 1) (n / 10), hne with
      | a :: as, _ =>
        rw [hA] at heq
        injection heq with h2 h3
        rw [← h2]
        exact ih (n / 10) hq1 hq a as hA

theorem digitsAux_length_le :
    ∀ f n k, n < 10 ^ (f + 1) → n < 10 ^ k → 1 ≤ k →
      (digitsAux (f + 1) n).length ≤ k := by
  intro f
  induction f with
  | zero =>
    intro n k h hk hk1
    have hn : n < 10 := by simpa using h
    rw [digitsAux_small 0 n hn]
    simpa using hk1
  | succ f ih =>
    intro n k h hk hk1
    by_cases hn : n < 10
    · rw [digitsAux_small (f + 1) n hn]
      simpa using hk1
    · have hq : n / 10 < 10 ^ (f + 1) := by
        rw [Nat.div_lt_iff_lt_mul (by norm_num)]
        calc n < 10 ^ (f + 1 + 1) := h
        _ = 10 ^ (f + 1) * 10 := by ring
      have hk2 : 2 ≤ k := by
        by_contra hc
        have hc1 : k = 1 := by omega
        subst hc1
        simp at hk
        omega
      have hqk : n / 10 < 10 ^ (k - 1) := by
        rw [Nat.div_lt_iff_lt_mul (by norm_num)]
        calc n < 10 ^ k := hk
        _ = 10 ^ (k - 1) * 10 := by
              rw [← pow_succ]
              congr 1
              omega
      have hstep : digitsAux (f + 1 + 1) n =
          digitsAux (f + 1) (n / 10) ++ [digitChar (n % 10)] := by
        simp [digitsAux, hn]
      rw [hstep]
      have := ih (n / 10) (k - 1) hq hqk (by omega)
      simp
      omega

theorem natDigits_spec (n : Nat) :
    natDigits n ≠ [] ∧ (∀ c ∈ natDigits n, c.isDigit = true) ∧
      digitsVal (natDigits n) = n := by
  apply digitsAux_spec
  calc n < 10 ^ n := Nat.lt_pow_self (by norm_num) n
  _ ≤ 10 ^ (n + 1) := Nat.pow_le_pow_right (by norm_num) (by omega)

theorem natDigits_head_ne_zero (n : Nat) (h : 1 ≤ n) :
    ∀ d ds, natDigits n = d :: ds → d ≠ '0' := by
  apply digitsAux_head_ne_zero _ _ h
  calc n < 10 ^ n := Nat.lt_pow_self (by norm_num) n
  _ ≤ 10 ^ (n + 1) := Nat.pow_le_pow_right (by norm_num) (by omega)

theorem natDigits_small (n : Nat) (h : n < 10) : natDigits n = [digitChar n] :=
  digitsAux_small n n h

theorem natDigits_length_le (n k : Nat) (h : n < 10 ^ k) (hk : 1 ≤ k) :
    (natDigits n).length ≤ k := by
  apply digitsAux_length_le _ _ _ _ h hk
  calc n < 10 ^ n := Nat.lt_pow_self (by norm_num) n
  _ ≤ 10 ^ (n + 1) := Nat.pow_le_pow_right (by norm_num) (by omega)

/-- The input does not continue with a digit (so greedy digit collection
stops exactly at a printed number's end). -/
def noDigitHead : List Char → Prop
  | [] => True
  | c :: _ => c.isDigit = false

/-- The input continues with neither a digit nor a decimal point (so a
printed number is parsed back exactly). -/
def numStop : List Char → Prop
  | [] => True
  | c :: _ => c.isDigit = false ∧ c ≠ '.'

theorem takeDigits_append (D rest : List Char) (hD : ∀ c ∈ D, c.isDigit = true)
    (hrest : noDigitHead rest) : takeDigits (D ++ rest) = (D, rest) := by
  induction D with
  | nil =>
    match rest, hrest with
    | [], _ => rfl
    | c :: cs, hrest =>
      have hc : c.isDigit = false := hrest
      simp only [List.nil_append, takeDigits]
      rw [if_neg (by simp [hc])]
  | cons d D' ih =>
    have hd : d.isDigit = true := hD d (by simp)
    have ih' := ih fun c hc => hD c (by simp [hc])
    simp only [List.cons_append, takeDigits]
    rw [if_pos hd]
    simp only [List.append_eq]
    rw [ih']

theorem digitsVal_acc (B : List Char) :
    ∀ acc : Nat, B.foldl (fun a c => 10 * a + (c.toNat - 48)) acc =
      acc * 10 ^ B.length + digitsVal B := by
  induction B with
  | nil => intro acc; simp [digitsVal]
  | cons c B' ih =>
    intro acc
    have h1 : digitsVal (c :: B') = (c.toNat - 48) * 10 ^ B'.length + digitsVal B' := by
      conv_lhs => unfold digitsVal
      simp only [List.foldl_cons]
      rw [ih]
      ring_nf
    simp only [List.foldl_cons]
    rw [ih, h1]
    simp [List.length_cons]
    ring

theorem digitsVal_append (A B : List Char) :
    digitsVal (A ++ B) = digitsVal A * 10 ^ B.length + digitsVal B := by
  unfold digitsVal
  rw [List.foldl_append]
  exact digitsVal_acc B _

theorem digitsVal_replicate_zero (k : Nat) :
    digitsVal (List.replicate k '0') = 0 := by
  induction k with
  | zero => rfl
  | succ k ih =>
    unfold digitsVal at ih ⊢
    simp [List.replicate_succ, List.foldl_cons]
    exact ih

theorem digitsVal_padZeros (e : Nat) (ds : List Char) :
    digitsVal (padZeros e ds) = digitsVal ds := by
  unfold padZeros
  rw [digitsVal_append, digitsVal_replicate_zero]
  simp

theorem padZeros_length (e : Nat) (ds : List Char) (h : ds.length ≤ e) :
    (padZeros e ds).length = e := by
  unfold padZeros
  simp
  omega

theorem padZeros_digits (e : Nat) (ds : List Char) (h : ∀ c ∈ ds, c.isDigit = true) :
    ∀ c ∈ padZeros e ds, c.isDigit = true := by
  intro c hc
  unfold padZeros at hc
  rcases List.mem_append.1 hc with h1 | h1
  · have : c = '0' := List.eq_of_mem_replicate h1
    subst this
    rfl
  · exact h c h1

theorem natDigits_no_leading_zero (a : Nat) :
    ∀ d ds, natDigits a = d :: ds → ¬(d = '0' ∧ ds ≠ []) := by
  intro d ds heq
  rintro ⟨hd, hds⟩
  by_cases ha : a < 10
  · rw [natDigits_small a ha] at heq
    injection heq with h1 h2
    exact hds h2.symm
  · exact natDigits_head_ne_zero a (by omega) d ds heq hd

theorem numStop_noDigitHead (rest : List Char) (h : numStop rest) : noDigitHead rest := by
  match rest, h with
  | [], _ => trivial
  | c :: cs, h => exact h.1

theorem numStop_head_ne_dot (rest : List Char) (h : numStop rest) :
    rest.head? ≠ some '.' := by
  match rest, h with
  | [], _ => simp
  | c :: cs, h => simpa using h.2

theorem parseNumCore_numBody (a e : Nat) (rest : List Char) (h : numStop rest) :
    parseNumCore (numBody a e ++ rest) = some ((a, e), rest) := by
  by_cases he : e = 0
  · subst he
    obtain ⟨hne, hdig, hval⟩ := natDigits_spec a
    match hD : natDigits a, hne with
    | d :: ds, _ =>
      rw [hD] at hdig hval
      have hbody : numBody a 0 = d :: ds := by simp [numBody, hD]
      have htake : takeDigits ((d :: ds) ++ rest) = (d :: ds, rest) :=
        takeDigits_append _ _ hdig (numStop_noDigitHead rest h)
      rw [hbody]
      unfold parseNumCore
      simp only [htake]
      rw [if_neg (natDigits_no_leading_zero a d ds hD)]
      rw [if_neg (numStop_head_ne_dot rest h)]
      rw [hval]
  · obtain ⟨hneq, hdigq, hvalq⟩ := natDigits_spec (a / pow10 e)
    obtain ⟨hner, hdigr, hvalr⟩ := natDigits_spec (a % pow10 e)
    have hrlt : a % pow10 e < 10 ^ e := by
      rw [← pow10_eq]
      exact Nat.mod_lt a (pow10_pos e)
    have hlenr : (natDigits (a % pow10 e)).length ≤ e :=
      natDigits_length_le _ _ hrlt (by omega)
    have hpadlen : (padZeros e (natDigits (a % pow10 e))).length = e :=
      padZeros_length _ _ hlenr
    have hpaddig : ∀ c ∈ padZeros e (natDigits (a % pow10 e)), c.isDigit = true :=
      padZeros_digits _ _ hdigr
    have hpadval : digitsVal (padZeros e (natDigits (a % pow10 e))) = a % pow10 e := by
      rw [digitsVal_padZeros, hvalr]
    have hPne : padZeros e (natDigits (a % pow10 e)) ≠ [] := by
      intro hc
      rw [hc] at hpadlen
      simp at hpadlen
      omega
    match hD : natDigits (a / pow10 e), hneq with
    | d :: ds, _ =>
      rw [hD] at hdigq hvalq
      match hP : padZeros e (natDigits (a % pow10 e)), hPne with
      | f :: fs, _ =>
        rw [hP] at hpadlen hpaddig hpadval
        have hsplit : numBody a e ++ rest = (d :: ds) ++ ('.' :: ((f :: fs) ++ rest)) := by
          simp only [numBody, if_neg he, hD, hP]
          simp [List.append_assoc]
        have htake1 : takeDigits ((d :: ds) ++ ('.' :: ((f :: fs) ++ rest))) =
            (d :: ds, '.' :: ((f :: fs) ++ rest)) :=
          takeDigits_append _ _ hdigq (by exact rfl)
        have htake2 : takeDigits ((f :: fs) ++ rest) = (f :: fs, rest) :=
          takeDigits_append _ _ hpaddig (numStop_noDigitHead rest h)
        rw [hsplit]
        unfold parseNumCore
        simp only [htake1]
        rw [if_neg (natDigits_no_leading_zero _ d ds hD)]
        rw [if_pos (by simp)]
        simp only [List.head?_cons, List.tail_cons, htake2]
        have hfinal : digitsVal (d :: ds ++ f :: fs) = a := by
          rw [show d :: ds ++ f :: fs = (d :: ds) ++ (f :: fs) from rfl]
          rw [digitsVal_append, hvalq, hpadval]
          have hl : (f :: fs).length = e := hpadlen
          rw [hl, ← pow10_eq, Nat.mul_comm]
          exact Nat.div_add_mod a (pow10 e)
        rw [hfinal, hpadlen]

theorem parseF_val_digit (f : Nat) (c : Char) (cs : List Char) (h : c.isDigit = true) :
    parseF (f + 1) .val (c :: cs) =
      (parseNumCore (c :: cs)).map fun p => (.v (.jnum (p.1.1 : Int) p.1.2), p.2) := by
  have h1 : c ≠ '{' := fun hc => by rw [hc] at h; exact absurd h (by decide)
  have h2 : c ≠ '[' := fun hc => by rw [hc] at h; exact absurd h (by decide)
  have h3 : c ≠ '"' := fun hc => by rw [hc] at h; exact absurd h (by decide)
  have h4 : c ≠ '-' := fun hc => by rw [hc] at h; exact absurd h (by decide)
  have h5 : c ≠ 'n' := fun hc => by rw [hc] at h; exact absurd h (by decide)
  have h6 : c ≠ 't' := fun hc => by rw [hc] at h; exact absurd h (by decide)
  have h7 : c ≠ 'f' := fun hc => by rw [hc] at h; exact absurd h (by decide)
  simp only [parseF]
  rw [if_neg h1, if_neg h2, if_neg h3, if_neg h4, if_neg h5, if_neg h6, if_neg h7,
    if_pos h]

theorem numBody_head_digit (a e : Nat) :
    ∃ d t, numBody a e = d :: t ∧ d.isDigit = true := by
  by_cases he : e = 0
  · subst he
    obtain ⟨hne, hdig, -⟩ := natDigits_spec a
    match hD : natDigits a, hne with
    | d :: ds, _ =>
      refine ⟨d, ds, by simp [numBody, hD], ?_⟩
      rw [hD] at hdig
      exact hdig d (by simp)
  · obtain ⟨hne, hdig, -⟩ := natDigits_spec (a / pow10 e)
    match hD : natDigits (a / pow10 e), hne with
    | d :: ds, _ =>
      refine ⟨d, ds ++ '.' :: padZeros e (natDigits (a % pow10 e)), ?_, ?_⟩
      · simp [numBody, he, hD]
      · rw [hD] at hdig
        exact hdig d (by simp)

theorem parseF_val_num (f : Nat) (m : Int) (e : Nat) (rest : List Char) (h : numStop rest) :
    parseF (f + 1) .val (numChars m e ++ rest) = some (.v (.jnum m e), rest) := by
  by_cases hm : m < 0
  · have hsign : numChars m e ++ rest = '-' :: (numBody m.natAbs e ++ rest) := by
      simp [numChars, hm]
    rw [hsign]
    simp only [parseF]
    rw [if_neg (by decide : ¬('-' : Char) = '{'), if_neg (by decide : ¬('-' : Char) = '['),
      if_neg (by decide : ¬('-' : Char) = '"')]
    simp only [if_true]
    rw [parseNumCore_numBody m.natAbs e rest h]
    simp only [Option.map_some']
    have : -((m.natAbs : Nat) : Int) = m := by omega
    rw [this]
  · obtain ⟨d, t, hD, hdig⟩ := numBody_head_digit m.natAbs e
    have hsign : numChars m e ++ rest = d :: (t ++ rest) := by
      simp [numChars, hm, hD]
    rw [hsign, parseF_val_digit f d _ hdig]
    have : d :: (t ++ rest) = numBody m.natAbs e ++ rest := by
      rw [hD]
      rfl
    rw [this, parseNumCore_numBody m.natAbs e rest h]
    simp only [Option.map_some']
    have : ((m.natAbs : Nat) : Int) = m := by omega
    rw [this]

theorem escapeChar_parse (c : Char) (tail : List Char) (f : Nat) :
    parseStrAux (f + 1) (escapeChar c ++ tail) =
      (parseStrAux f tail).map fun p => (c :: p.1, p.2) := by
  by_cases h8 : c.toNat < 32
  · obtain ⟨t, ht, rfl⟩ : ∃ t, t < 32 ∧ c = Char.ofNat t :=
      ⟨c.toNat, h8, (Char.ofNat_toNat c).symm⟩
    interval_cases t <;> rfl
  · by_cases h1 : c = '"'
    · subst h1; rfl
    by_cases h2 : c = '\\'
    · subst h2; rfl
    have h3 : c ≠ '\n' := fun hc => h8 (by rw [hc]; decide)
    have h4 : c ≠ '\t' := fun hc => h8 (by rw [hc]; decide)
    have h5 : c ≠ '\r' := fun hc => h8 (by rw [hc]; decide)
    have h6 : c ≠ Char.ofNat 8 := fun hc => h8 (by rw [hc]; decide)
    have h7 : c ≠ Char.ofNat 12 := fun hc => h8 (by rw [hc]; decide)
    have e1 : escapeChar c = [c] := by
      unfold escapeChar
      rw [if_neg h1, if_neg h2, if_neg h3, if_neg h4, if_neg h5, if_neg h6, if_neg h7,
        if_neg h8]
    rw [e1]
    have e2 : ([c] ++ tail) = c :: tail := rfl
    rw [e2]
    show (if c = '"' then some ([], tail)
      else if c = '\\' then _
      else if c.toNat < 32 then none
      else (parseStrAux f tail).map fun p => (c :: p.1, p.2)) = _
    rw [if_neg h1, if_neg h2, if_neg h8]

theorem parseStrAux_escapeL :
    ∀ (s tail : List Char) (f : Nat), s.length < f →
      parseStrAux f (escapeL s ++ '"' :: tail) = some (s, tail) := by
  intro s
  induction s with
  | nil =>
    intro tail f hf
    cases f with
    | zero => omega
    | succ f => rfl
  | cons c cs ih =>
    intro tail f hf
    cases f with
    | zero => omega
    | succ f =>
      have hassoc : escapeL (c :: cs) ++ '"' :: tail =
          escapeChar c ++ (escapeL cs ++ '"' :: tail) := by
        simp [escapeL, List.append_assoc]
      rw [hassoc, escapeChar_parse,
        ih tail f (Nat.lt_of_succ_lt_succ hf)]
      rfl

theorem escapeChar_length_pos (c : Char) : 1 ≤ (escapeChar c).length := by
  unfold escapeChar
  split_ifs <;> simp

theorem escapeL_length (s : List Char) : s.length ≤ (escapeL s).length := by
  induction s with
  | nil => simp [escapeL]
  | cons c cs ih =>
    simp only [escapeL, List.length_cons, List.length_append]
    have := escapeChar_length_pos c
    omega

theorem parseF_val_quote (f : Nat) (R : List Char) :
    parseF (f + 1) .val ('"' :: R) =
      (parseStrAux (R.length + 1) R).map fun p => (.v (.jstr ⟨p.1⟩), p.2) := rfl

theorem parseF_val_arr (f : Nat) (R : List Char) :
    parseF (f + 1) .val ('[' :: R) =
      (if (skipWs R).head? = some ']' then some (.v (.jarr []), (skipWs R).tail)
       else
         match parseF f .items (skipWs R) with
         | some (.vs xs, r2) => some (.v (.jarr xs), r2)
         | _ => none) := rfl

theorem parseF_val_obj (f : Nat) (R : List Char) :
    parseF (f + 1) .val ('{' :: R) =
      (if (skipWs R).head? = some '}' then some (.v (.jobj []), (skipWs R).tail)
       else
         match parseF f .fields (skipWs R) with
         | some (.kvs fs, r2) => some (.v (.jobj fs), r2)
         | _ => none) := rfl

theorem parseF_items_eq (f : Nat) (cs : List Char) :
    parseF (f + 1) .items cs =
      (match parseF f .val cs with
       | some (.v x, r1) =>
         match skipWs r1 with
         | ',' :: r3 =>
           (match parseF f .items (skipWs r3) with
            | some (.vs xs, r4) => some (.vs (x :: xs), r4)
            | _ => none)
         | ']' :: r3 => some (.vs [x], r3)
         | _ => none
       | _ => none) := rfl

theorem parseF_fields_quote (f : Nat) (R : List Char) :
    parseF (f + 1) .fields ('"' :: R) =
      (match parseStrAux (R.length + 1) R with
       | some (kcs, r1) =>
         match skipWs r1 with
         | ':' :: r2 =>
           (match parseF f .val (skipWs r2) with
            | some (.v x, r3) =>
              (match skipWs r3 with
               | ',' :: r5 =>
                 (match parseF f .fields (skipWs r5) with
                  | some (.kvs fs, r6) => some (.kvs ((⟨kcs⟩, x) :: fs), r6)
                  | _ => none)
               | '}' :: r5 => some (.kvs [(⟨kcs⟩, x)], r5)
               | _ => none)
            | _ => none)
         | _ => none
       | none => none) := rfl

theorem parseF_val_str (f : Nat) (s : String) (rest : List Char) :
    parseF (f + 1) .val (strChars s ++ rest) = some (.v (.jstr s), rest) := by
  have hsplit : strChars s ++ rest = '"' :: (escapeL s.data ++ '"' :: rest) := by
    simp [strChars, List.append_assoc]
  rw [hsplit, parseF_val_quote,
    parseStrAux_escapeL s.data rest ((escapeL s.data ++ '"' :: rest).length + 1)
      (by
        have := escapeL_length s.data
        simp only [List.length_append, List.length_cons]
        omega)]
  rfl

theorem parseF_items_step (f : Nat) (cs r1 : List Char) (x : JVal)
    (h : parseF f .val cs = some (.v x, r1)) :
    parseF (f + 1) .items cs =
      (match skipWs r1 with
       | ',' :: r3 =>
         (match parseF f .items (skipWs r3) with
          | some (.vs xs, r4) => some (.vs (x :: xs), r4)
          | _ => none)
       | ']' :: r3 => some (.vs [x], r3)
       | _ => none) := by
  rw [parseF_items_eq, h]

theorem parseF_fields_key (f : Nat) (k : String) (T : List Char) :
    parseF (f + 1) .fields (strChars k ++ T) =
      (match skipWs T with
       | ':' :: r2 =>
         (match parseF f .val (skipWs r2) with
          | some (.v x, r3) =>
            (match skipWs r3 with
             | ',' :: r5 =>
               (match parseF f .fields (skipWs r5) with
                | some (.kvs fs, r6) => some (.kvs ((k, x) :: fs), r6)
                | _ => none)
             | '}' :: r5 => some (.kvs [(k, x)], r5)
             | _ => none)
          | _ => none)
       | _ => none) := by
  have hsplit : strChars k ++ T = '"' :: (escapeL k.data ++ '"' :: T) := by
    simp [strChars, List.append_assoc]
  rw [hsplit, parseF_fields_quote,
    parseStrAux_escapeL k.data T ((escapeL k.data ++ '"' :: T).length + 1)
      (by
        have := escapeL_length k.data
        simp only [List.length_append, List.length_cons]
        omega)]

theorem parseF_fields_key_step (f : Nat) (k : String) (V : List Char) :
    parseF (f + 1) .fields (strChars k ++ ':' :: ' ' :: V) =
      (match parseF f .val (skipWs V) with
       | some (.v x, r3) =>
         (match skipWs r3 with
          | ',' :: r5 =>
            (match parseF f .fields (skipWs r5) with
             | some (.kvs fs, r6) => some (.kvs ((k, x) :: fs), r6)
             | _ => none)
          | '}' :: r5 => some (.kvs [(k, x)], r5)
          | _ => none)
       | _ => none) :=
  (parseF_fields_key f k (':' :: ' ' :: V)).trans rfl

theorem skipWs_cons_false (d : Char) (t : List Char) (h : isWsChar d = false) :
    skipWs (d :: t) = d :: t := by
  simp [skipWs, h]

theorem isDigit_not_special (d : Char) (h : d.isDigit = true) :
    isWsChar d = false ∧ d ≠ ']' ∧ d ≠ '}' := by
  have w1 : d ≠ ' ' := fun hc => by rw [hc] at h; exact absurd h (by decide)
  have w2 : d ≠ '\t' := fun hc => by rw [hc] at h; exact absurd h (by decide)
  have w3 : d ≠ '\n' := fun hc => by rw [hc] at h; exact absurd h (by decide)
  have w4 : d ≠ '\r' := fun hc => by rw [hc] at h; exact absurd h (by decide)
  refine ⟨by simp [isWsChar, w1, w2, w3, w4], ?_, ?_⟩
  · exact fun hc => by rw [hc] at h; exact absurd h (by decide)
  · exact fun hc => by rw [hc] at h; exact absurd h (by decide)

theorem dumpsVal_head (v : JVal) :
    ∃ d t, dumpsVal v = d :: t ∧ isWsChar d = false ∧ d ≠ ']' ∧ d ≠ '}' := by
  cases v with
  | jnull => exact ⟨'n', _, rfl, by decide, by decide, by decide⟩
  | jbool b =>
    cases b with
    | false => exact ⟨'f', _, rfl, by decide, by decide, by decide⟩
    | true => exact ⟨'t', _, rfl, by decide, by decide, by decide⟩
  | jnum m e =>
    by_cases hm : m < 0
    · refine ⟨'-', numBody m.natAbs e, ?_, by decide, by decide, by decide⟩
      simp [dumpsVal, numChars, hm]
    · obtain ⟨d, t, hD, hdig⟩ := numBody_head_digit m.natAbs e
      obtain ⟨h1, h2, h3⟩ := isDigit_not_special d hdig
      refine ⟨d, t, ?_, h1, h2, h3⟩
      simp [dumpsVal, numChars, hm, hD]
  | jstr s => exact ⟨'"', _, rfl, by decide, by decide, by decide⟩
  | jarr xs => exact ⟨'[', _, rfl, by decide, by decide, by decide⟩
  | jobj fs => exact ⟨'{', _, rfl, by decide, by decide, by decide⟩

theorem dumpsItems_head (x : JVal) (xs : List JVal) :
    ∃ d t, dumpsItems (x :: xs) = d :: t ∧ isWsChar d = false ∧ d ≠ ']' ∧ d ≠ '}' := by
  obtain ⟨d, t, hD, h1, h2, h3⟩ := dumpsVal_head x
  cases xs with
  | nil => exact ⟨d, t, by simp [dumpsItems, hD], h1, h2, h3⟩
  | cons y ys =>
    exact ⟨d, t ++ ',' :: ' ' :: dumpsItems (y :: ys), by simp [dumpsItems, hD], h1, h2, h3⟩

theorem dumpsFields_head (k : String) (v : JVal) (fs : List (String × JVal)) :
    ∃ t, dumpsFields ((k, v) :: fs) = '"' :: t := by
  cases fs with
  | nil => exact ⟨_, rfl⟩
  | cons g gs => exact ⟨_, rfl⟩

mutual
/-- Nesting size of a value: the recursion depth `parseF` needs beyond the
per-level unit of fuel. -/
def jsize : JVal → Nat
  | .jnull => 1
  | .jbool _ => 1
  | .jnum _ _ => 1
  | .jstr _ => 1
  | .jarr xs => jsizeItems xs + 1
  | .jobj fs => jsizeFields fs + 1
  termination_by structural v => v

/-- Nesting size of an array tail. -/
def jsizeItems : List JVal → Nat
  | [] => 0
  | x :: xs => jsize x + jsizeItems xs + 1
  termination_by structural l => l

/-- Nesting size of an object tail. -/
def jsizeFields : List (String × JVal) → Nat
  | [] => 0
  | (_, v) :: fs => jsize v + jsizeFields fs + 1
  termination_by structural l => l
end

theorem jsize_pos (v : JVal) : 1 ≤ jsize v := by
  cases v <;> simp only [jsize] <;> omega

theorem numChars_length_pos (m : Int) (e : Nat) : 1 ≤ (numChars m e).length := by
  obtain ⟨d, t, hD, -⟩ := numBody_head_digit m.natAbs e
  simp only [numChars, List.length_append, hD, List.length_cons]
  omega

mutual
theorem jsize_le_dumpsVal : ∀ v : JVal, jsize v ≤ (dumpsVal v).length
  | .jnull => by simp [jsize, dumpsVal]
  | .jbool b => by cases b <;> simp [jsize, dumpsVal]
  | .jnum m e => by
    have := numChars_length_pos m e
    simp only [jsize, dumpsVal]
    omega
  | .jstr s => by
    simp only [jsize, dumpsVal, strChars, List.length_cons, List.length_append]
    omega
  | .jarr xs => by
    have := jsizeItems_le_dumpsItems xs
    simp only [jsize, dumpsVal, List.length_cons, List.length_append]
    omega
  | .jobj fs => by
    have := jsizeFields_le_dumpsFields fs
    simp only [jsize, dumpsVal, List.length_cons, List.length_append]
    omega
  termination_by structural v => v

theorem jsizeItems_le_dumpsItems : ∀ xs : List JVal, jsizeItems xs ≤ (dumpsItems xs).length + 1
  | [] => by simp [jsizeItems]
  | [x] => by
    have := jsize_le_dumpsVal x
    simp only [jsizeItems, dumpsItems]
    omega
  | x :: y :: ys => by
    have h1 := jsize_le_dumpsVal x
    have h2 := jsizeItems_le_dumpsItems (y :: ys)
    simp only [jsizeItems, dumpsItems, List.length_append, List.length_cons] at h2 ⊢
    omega
  termination_by structural l => l

theorem jsizeFields_le_dumpsFields :
    ∀ fs : List (String × JVal), jsizeFields fs ≤ (dumpsFields fs).length + 1
  | [] => by simp [jsizeFields]
  | [(k, v)] => by
    have := jsize_le_dumpsVal v
    simp only [jsizeFields, dumpsFields, List.length_append, List.length_cons]
    omega
  | (k, v) :: g :: gs => by
    have h1 := jsize_le_dumpsVal v
    have h2 := jsizeFields_le_dumpsFields (g :: gs)
    simp only [jsizeFields, dumpsFields, List.length_append, List.length_cons] at h2 ⊢
    omega
  termination_by structural l => l
end

/-- Completeness of the reader against the printer, by induction on fuel:
in each mode, parsing the printed text with enough fuel recovers the
printed structure and leaves the trailing input untouched. -/
theorem parseF_complete : ∀ f : Nat,
    (∀ v rest, jsize v ≤ f → numStop rest →
      parseF f .val (dumpsVal v ++ rest) = some (.v v, rest)) ∧
    (∀ x xs rest, jsizeItems (x :: xs) ≤ f →
      parseF f .items (dumpsItems (x :: xs) ++ ']' :: rest) = some (.vs (x :: xs), rest)) ∧
    (∀ k v fs rest, jsizeFields ((k, v) :: fs) ≤ f →
      parseF f .fields (dumpsFields ((k, v) :: fs) ++ '}' :: rest) =
        some (.kvs ((k, v) :: fs), rest)) := by
  intro f
  induction f with
  | zero =>
    refine ⟨?_, ?_, ?_⟩
    · intro v rest hs _
      have := jsize_pos v
      omega
    · intro x xs rest hs
      simp only [jsizeItems] at hs
      omega
    · intro k v fs rest hs
      simp only [jsizeFields] at hs
      omega
  | succ f ih =>
    obtain ⟨ihv, ihi, ihf⟩ := ih
    refine ⟨?_, ?_, ?_⟩
    · intro v rest hs hstop
      cases v with
      | jnull => rfl
      | jbool b => cases b <;> rfl
      | jnum m e => exact parseF_val_num f m e rest hstop
      | jstr s => exact parseF_val_str f s rest
      | jarr xs =>
        cases xs with
        | nil => rfl
        | cons x xs =>
          have hs' : jsizeItems (x :: xs) ≤ f := by
            simp only [jsize] at hs
            omega
          have hsplit : dumpsVal (.jarr (x :: xs)) ++ rest =
              '[' :: (dumpsItems (x :: xs) ++ ']' :: rest) := by
            show ('[' :: dumpsItems (x :: xs) ++ [']']) ++ rest = _
            simp [List.append_assoc]
          obtain ⟨d, t, hD, hw, hne1, hne2⟩ := dumpsItems_head x xs
          have hskip : skipWs (dumpsItems (x :: xs) ++ ']' :: rest) =
              dumpsItems (x :: xs) ++ ']' :: rest := by
            rw [hD]
            exact skipWs_cons_false d _ hw
          have hh : (dumpsItems (x :: xs) ++ ']' :: rest).head? = some d := by
            rw [hD]
            rfl
          have hneq : ¬((dumpsItems (x :: xs) ++ ']' :: rest).head? = some ']') := by
            rw [hh]
            intro hc
            injection hc with hc'
            exact hne1 hc'
          have hrec := ihi x xs rest hs'
          rw [hsplit, parseF_val_arr, hskip, if_neg hneq, hrec]
      | jobj fs =>
        cases fs with
        | nil => rfl
        | cons g gs =>
          obtain ⟨k1, v1⟩ := g
          have hs' : jsizeFields ((k1, v1) :: gs) ≤ f := by
            simp only [jsize] at hs
            omega
          have hsplit : dumpsVal (.jobj ((k1, v1) :: gs)) ++ rest =
              '{' :: (dumpsFields ((k1, v1) :: gs) ++ '}' :: rest) := by
            show ('{' :: dumpsFields ((k1, v1) :: gs) ++ ['}']) ++ rest = _
            simp [List.append_assoc]
          obtain ⟨t, hDf⟩ := dumpsFields_head k1 v1 gs
          have hskip : skipWs (dumpsFields ((k1, v1) :: gs) ++ '}' :: rest) =
              dumpsFields ((k1, v1) :: gs) ++ '}' :: rest := by
            rw [hDf]
            exact skipWs_cons_false '"' _ (by decide)
          have hh : (dumpsFields ((k1, v1) :: gs) ++ '}' :: rest).head? = some '"' := by
            rw [hDf]
            rfl
          have hneq : ¬((dumpsFields ((k1, v1) :: gs) ++ '}' :: rest).head? = some '}') := by
            rw [hh]
            intro hc
            injection hc with hc'
            exact absurd hc' (by decide)
          have hrec := ihf k1 v1 gs rest hs'
          rw [hsplit, parseF_val_obj, hskip, if_neg hneq, hrec]
    · intro x xs rest hs
      have hx : jsize x ≤ f := by
        simp only [jsizeItems] at hs
        omega
      cases xs with
      | nil =>
        have hval := ihv x (']' :: rest) hx ⟨by decide, by decide⟩
        have hone : dumpsItems [x] ++ ']' :: rest = dumpsVal x ++ ']' :: rest := by
          simp [dumpsItems]
        rw [hone, parseF_items_step f _ _ x hval]
        rfl
      | cons y ys =>
        have hs2 : jsizeItems (y :: ys) ≤ f := by
          simp only [jsizeItems] at hs ⊢
          omega
        have hsplit : dumpsItems (x :: y :: ys) ++ ']' :: rest =
            dumpsVal x ++ (',' :: ' ' :: (dumpsItems (y :: ys) ++ ']' :: rest)) := by
          show (dumpsVal x ++ ',' :: ' ' :: dumpsItems (y :: ys)) ++ ']' :: rest = _
          simp [List.append_assoc]
        have hval := ihv x (',' :: ' ' :: (dumpsItems (y :: ys) ++ ']' :: rest)) hx
          ⟨by decide, by decide⟩
        obtain ⟨d, t, hD, hw, -, -⟩ := dumpsItems_head y ys
        have hskip : skipWs (dumpsItems (y :: ys) ++ ']' :: rest) =
            dumpsItems (y :: ys) ++ ']' :: rest := by
          rw [hD]
          exact skipWs_cons_false d _ hw
        have hrec := ihi y ys rest hs2
        rw [hsplit, parseF_items_step f _ _ x hval]
        show (match parseF f .items (skipWs (dumpsItems (y :: ys) ++ ']' :: rest)) with
          | some (PRes.vs xs, r4) => some (PRes.vs (x :: xs), r4)
          | _ => none) = some (PRes.vs (x :: y :: ys), rest)
        rw [hskip, hrec]
    · intro k v fs rest hs
      have hv' : jsize v ≤ f := by
        simp only [jsizeFields] at hs
        omega
      cases fs with
      | nil =>
        have hsplit : dumpsFields [(k, v)] ++ '}' :: rest =
            strChars k ++ ':' :: ' ' :: (dumpsVal v ++ '}' :: rest) := by
          show (strChars k ++ ':' :: ' ' :: dumpsVal v) ++ '}' :: rest = _
          simp [List.append_assoc]
        obtain ⟨d, t, hD, hw, -, -⟩ := dumpsVal_head v
        have hskipv : skipWs (dumpsVal v ++ '}' :: rest) = dumpsVal v ++ '}' :: rest := by
          rw [hD]
          exact skipWs_cons_false d _ hw
        have hval := ihv v ('}' :: rest) hv' ⟨by decide, by decide⟩
        rw [hsplit, parseF_fields_key_step, hskipv, hval]
        rfl
      | cons g gs =>
        obtain ⟨k2, v2⟩ := g
        have hs2 : jsizeFields ((k2, v2) :: gs) ≤ f := by
          simp only [jsizeFields] at hs ⊢
          omega
        have hsplit : dumpsFields ((k, v) :: (k2, v2) :: gs) ++ '}' :: rest =
            strChars k ++ ':' :: ' ' :: (dumpsVal v ++
              (',' :: ' ' :: (dumpsFields ((k2, v2) :: gs) ++ '}' :: rest))) := by
          show (strChars k ++ ':' :: ' ' :: dumpsVal v ++
              ',' :: ' ' :: dumpsFields ((k2, v2) :: gs)) ++ '}' :: rest = _
          simp [List.append_assoc]
        obtain ⟨d, t, hD, hw, -, -⟩ := dumpsVal_head v
        have hskipv : skipWs (dumpsVal v ++
            ',' :: ' ' :: (dumpsFields ((k2, v2) :: gs) ++ '}' :: rest)) =
            dumpsVal v ++ ',' :: ' ' :: (dumpsFields ((k2, v2) :: gs) ++ '}' :: rest) := by
          rw [hD]
          exact skipWs_cons_false d _ hw
        have hval := ihv v (',' :: ' ' :: (dumpsFields ((k2, v2) :: gs) ++ '}' :: rest)) hv'
          ⟨by decide, by decide⟩
        obtain ⟨t2, hDf⟩ := dumpsFields_head k2 v2 gs
        have hskipf : skipWs (dumpsFields ((k2, v2) :: gs) ++ '}' :: rest) =
            dumpsFields ((k2, v2) :: gs) ++ '}' :: rest := by
          rw [hDf]
          exact skipWs_cons_false '"' _ (by decide)
        have hrec := ihf k2 v2 gs rest hs2
        rw [hsplit, parseF_fields_key_step, hskipv, hval]
        show (match parseF f .fields (skipWs (dumpsFields ((k2, v2) :: gs) ++ '}' :: rest)) with
          | some (PRes.kvs fs, r6) => some (PRes.kvs ((k, v) :: fs), r6)
          | _ => none) = some (PRes.kvs ((k, v) :: (k2, v2) :: gs), rest)
        rw [hskipf, hrec]

theorem skipWs_dumpsVal (v : JVal) : skipWs (dumpsVal v) = dumpsVal v := by
  obtain ⟨d, t, hD, hw, -, -⟩ := dumpsVal_head v
  rw [hD]
  exact skipWs_cons_false d t hw

/-- Printing then parsing is the identity: the model of `json.loads` reads
back the model of `json.dumps` exactly. -/
theorem loads_dumps (v : JVal) : loads (dumps v) = some v := by
  have hA := (parseF_complete ((dumpsVal v).length + 1)).1 v []
    (by have := jsize_le_dumpsVal v; omega) trivial
  rw [List.append_nil] at hA
  simp only [loads, dumps]
  rw [skipWs_dumpsVal]
  simp only [hA]
  rfl

theorem firstIdxAux_append (c : Char) (xs ys : List Char) (h : c ∉ xs) :
    firstIdxAux c (xs ++ c :: ys) = some xs.length := by
  induction xs with
  | nil => simp [firstIdxAux]
  | cons a as ih =>
    have ha : ¬(a = c) := fun hc => h (by rw [hc]; exact List.mem_cons_self c as)
    have h' : c ∉ as := fun hm => h (List.mem_cons_of_mem a hm)
    simp [firstIdxAux, ha, ih h']

theorem lastIdx_append (c : Char) (xs ys : List Char) (h : c ∉ ys) :
    lastIdx (xs ++ c :: ys) c = some xs.length := by
  have hrev : (xs ++ c :: ys).reverse = ys.reverse ++ c :: xs.reverse := by
    simp [List.reverse_append]
  have h' : c ∉ ys.reverse := by simpa using h
  simp only [lastIdx, hrev, firstIdxAux_append c _ _ h']
  simp only [List.length_reverse, List.length_append, List.length_cons, Option.some.injEq]
  omega

/-- The extractor recovers a dumped object wrapped in prose whenever the
leading prose has no opening brace, the trailing prose has no closing
brace, and the wrapped text is not itself accepted by the JSON reader. -/
theorem extract_wrapped (fs : List (String × JVal)) (p1 p2 : String)
    (h1 : '{' ∉ p1.data) (h2 : '}' ∉ p2.data)
    (hnone : loads (p1 ++ dumps (.jobj fs) ++ p2) = none) :
    extract_json_from_text (p1 ++ dumps (.jobj fs) ++ p2) = .ok (dumps (.jobj fs)) := by
  have hdata : (p1 ++ dumps (.jobj fs) ++ p2).data =
      p1.data ++ dumpsVal (.jobj fs) ++ p2.data := rfl
  have hD : dumpsVal (.jobj fs) = '{' :: (dumpsFields fs ++ ['}']) := rfl
  have harr1 : (p1 ++ dumps (.jobj fs) ++ p2).data =
      p1.data ++ '{' :: ((dumpsFields fs ++ ['}']) ++ p2.data) := by
    rw [hdata, hD]
    simp [List.append_assoc]
  have harr2 : (p1 ++ dumps (.jobj fs) ++ p2).data =
      (p1.data ++ '{' :: dumpsFields fs) ++ '}' :: p2.data := by
    rw [hdata, hD]
    simp [List.append_assoc]
  have hfirst : firstIdx (p1 ++ dumps (.jobj fs) ++ p2).data '{' = some p1.data.length := by
    simp only [firstIdx]
    rw [harr1]
    exact firstIdxAux_append '{' p1.data _ h1
  have hlast : lastIdx (p1 ++ dumps (.jobj fs) ++ p2).data '}' =
      some (p1.data.length + (dumpsFields fs).length + 1) := by
    rw [harr2, lastIdx_append '}' _ _ h2]
    simp only [List.length_append, List.length_cons, Option.some.injEq]
    omega
  have hlen : p1.data.length + (dumpsFields fs).length + 1 + 1 - p1.data.length =
      (dumpsVal (.jobj fs)).length := by
    rw [hD]
    simp only [List.length_cons, List.length_append, List.length_nil]
    omega
  have hslice : strSlice (p1 ++ dumps (.jobj fs) ++ p2) p1.data.length
      (p1.data.length + (dumpsFields fs).length + 1) = dumps (.jobj fs) := by
    show String.mk (((p1 ++ dumps (.jobj fs) ++ p2).data.drop p1.data.length).take
        (p1.data.length + (dumpsFields fs).length + 1 + 1 - p1.data.length)) =
      String.mk (dumpsVal (.jobj fs))
    congr 1
    rw [hlen]
    have hsplit : (p1 ++ dumps (.jobj fs) ++ p2).data =
        p1.data ++ (dumpsVal (.jobj fs) ++ p2.data) := by
      rw [hdata]
      simp [List.append_assoc]
    rw [hsplit, List.drop_left, List.take_left]
  unfold extract_json_from_text
  rw [hnone, if_neg (by simp), hfirst, hlast]
  show (if p1.data.length > p1.data.length + (dumpsFields fs).length + 1 then
      Except.error VErr.noJsonFound
    else if (loads (strSlice (p1 ++ dumps (.jobj fs) ++ p2) p1.data.length
        (p1.data.length + (dumpsFields fs).length + 1))).isSome then
      Except.ok (strSlice (p1 ++ dumps (.jobj fs) ++ p2) p1.data.length
        (p1.data.length + (dumpsFields fs).length + 1))
    else Except.error VErr.invalidJson) = Except.ok (dumps (.jobj fs))
  rw [if_neg (by omega), hslice, if_pos (by rw [loads_dumps]; rfl)]

/-- **C7.** Round-trip through the extractor: `parse_vpgm_instance` applied
to `json.dumps(X)` recovers X for every value X; and a dumped object
wrapped in leading/trailing prose is still recovered provided the leading
prose contains no opening brace, the trailing prose contains no closing
brace, and the wrapped text is not itself accepted by the JSON reader.
Without these provisos the prose-wrapped part of the claim is false; see
the counterexample with a closing brace in the trailing prose. -/
theorem c7_roundtrip_extraction :
    (∀ X : JVal, parse_vpgm_instance (dumps X) = .ok X) ∧
    (∀ (fs : List (String × JVal)) (p1 p2 : String),
      '{' ∉ p1.data → '}' ∉ p2.data →
      loads (p1 ++ dumps (.jobj fs) ++ p2) = none →
      parse_vpgm_instance (p1 ++ dumps (.jobj fs) ++ p2) = .ok (.jobj fs)) := by
  constructor
  · intro X
    have hl := loads_dumps X
    have hext : extract_json_from_text (dumps X) = .ok (dumps X) := by
      unfold extract_json_from_text
      rw [hl, if_pos (show (some X).isSome = true from rfl)]
    unfold parse_vpgm_instance
    rw [hext]
    show (match loads (dumps X) with
      | some v => Except.ok v
      | none => Except.error VErr.invalidJson) = Except.ok X
    rw [hl]
  · intro fs p1 p2 h1 h2 hnone
    have hext := extract_wrapped fs p1 p2 h1 h2 hnone
    unfold parse_vpgm_instance
    rw [hext]
    show (match loads (dumps (.jobj fs)) with
      | some v => Except.ok v
      | none => Except.error VErr.invalidJson) = Except.ok (JVal.jobj fs)
    rw [loads_dumps]

/-- Witness for C7 at concrete inputs: a dumped two-field object wrapped
in prose on both sides is recovered exactly. -/
theorem c7_roundtrip_extraction_witness :
    parse_vpgm_instance ("Sure! Here is the instance: " ++
        dumps (.jobj [("template_id", .jstr "T"), ("n", .jnum 25 1)]) ++
        " Hope this helps.") =
      .ok (.jobj [("template_id", .jstr "T"), ("n", .jnum 25 1)]) :=
  c7_roundtrip_extraction.2 [("template_id", .jstr "T"), ("n", .jnum 25 1)]
    "Sure! Here is the instance: " " Hope this helps." (by decide) (by decide) (by rfl)

/-- The unconditional prose-wrapping in C7 fails: trailing prose that
contains a closing brace makes the first-brace-to-last-brace candidate
invalid JSON, so parsing reports the extraction failure instead of
recovering the object. -/
theorem c7_counterexample_trailing_brace :
    parse_vpgm_instance (dumps (.jobj [("a", .jnum 1 0)]) ++ " \x7d") =
      .error .invalidJson := rfl
